import Mathlib

/-!
Verification development for the `prompt-doctor` repository's context
retrieval and indexing engine (`src/context-retriever.ts`).

The TypeScript source is shallowly embedded below.  Conventions used by the
embedding:

* JavaScript strings are Lean `String`s; all string processing is done on
  `List Char` (`String.data`) with hand-rolled structural functions so that
  every definition evaluates by kernel reduction.  Only the ASCII fragment
  relevant to the source's regular expressions and token syntax is modelled
  (`\s`, `\w`, `[a-z0-9_]`, `toLowerCase`, `trim`).
* JavaScript numbers that the source uses as sizes and line counts are `ℕ`;
  embedding-vector components are `ℚ` (the spec treats vector arithmetic
  exactly, not at float precision); the constants `0.2` / `0.8` are the
  rationals `1/5` / `4/5`.
* Relevance scores in the source are floats of the form
  `overlap / sqrt (max 1 p)` and blends thereof.  They are kept symbolically
  (`LexScore`, `Score`) together with a noncomputable real-valued semantics
  (`scoreVal`) and a computable comparison `scoreGe` that provably decides
  the real comparison (`scoreGe_iff`).  Array sorting with the source's
  numeric comparator is modelled by the stable insertion sort
  `stableSortBy` (ECMAScript `Array.prototype.sort` is stable; a stable
  sort w.r.t. a total preorder is unique, so this is the same function as
  any other stable sort).
* `JS Set` iteration order is insertion order; sets of strings are modelled
  as duplicate-free lists in insertion order (`insertionDedup`).
* The dynamically loaded `@huggingface/transformers` feature extractor is an
  external capability (spec §1, §6): it is modelled as an optional function
  from a batch of strings to a raw tensor list, mirroring exactly the
  shape analysis done in `embedBatch`.
* File-system reads and `JSON.parse` are modelled as explicit inputs
  (`Option String` file contents, a parse oracle producing an optional
  `ParsedIndex`), since their implementations are outside the repository.
* The `async` control flow of `getContextForPrompt` is modelled by its
  synchronous JavaScript prefix: `startIndexingIfNeeded` performs the
  synchronous best-effort cache load and fires `ensureIndex` into the
  background; in the single-threaded JS event loop the background rebuild
  cannot mutate `indexChunks` before the current synchronous section (up to
  the first `await`) has completed, so it contributes nothing to the state
  observed by the same call's empty-index check.
-/

/-! ### Character classes and basic string utilities -/

/-- JavaScript `\s` (ASCII fragment). -/
def jsWs (c : Char) : Bool :=
  c = ' ' || c = '\t' || c = '\n' || c = '\r' || c = '\x0b' || c = '\x0c'

/-- JavaScript `\w`, i.e. `[A-Za-z0-9_]`. -/
def jsWord (c : Char) : Bool :=
  ('a' ≤ c && c ≤ 'z') || ('A' ≤ c && c ≤ 'Z') || ('0' ≤ c && c ≤ '9') || c = '_'

/-- The token character class `[a-z0-9_]` of `tokenize`. -/
def tokChar (c : Char) : Bool :=
  ('a' ≤ c && c ≤ 'z') || ('0' ≤ c && c ≤ '9') || c = '_'

/-- ASCII lowercasing, as applied by `toLowerCase` to the character data
relevant here. -/
def lowerChar (c : Char) : Char :=
  if 'A' ≤ c && c ≤ 'Z' then Char.ofNat (c.toNat + 32) else c

/-- Embeds `String.prototype.toLowerCase`. -/
def jsToLower (s : String) : String := ⟨s.data.map lowerChar⟩

/-- Embeds `String.prototype.trim` on character lists. -/
def trimChars (l : List Char) : List Char :=
  ((l.dropWhile jsWs).reverse.dropWhile jsWs).reverse

/-- Embeds `String.prototype.trim`. -/
def jsTrim (s : String) : String := ⟨trimChars s.data⟩

/-- Embeds `content.split(/\r?\n/)`: split on `\n`, swallowing an immediately
preceding `\r`.  A lone `\r` is not a separator. -/
def splitLinesAux : List Char → List Char → List String
  | [], acc => [⟨acc.reverse⟩]
  | '\r' :: '\n' :: rest, acc => (⟨acc.reverse⟩ : String) :: splitLinesAux rest []
  | '\n' :: rest, acc => (⟨acc.reverse⟩ : String) :: splitLinesAux rest []
  | c :: rest, acc => splitLinesAux rest (c :: acc)

def splitLines (s : String) : List String := splitLinesAux s.data []

/-- Embeds `Array.prototype.join("\n")`. -/
def joinNL : List String → String
  | [] => ""
  | [a] => a
  | a :: b :: rest => a ++ "\n" ++ joinNL (b :: rest)

/-- Boolean list-prefix test (structural, kernel-reducible). -/
def prefixOfB : List Char → List Char → Bool
  | [], _ => true
  | _ :: _, [] => false
  | a :: as, b :: bs => a = b && prefixOfB as bs

/-- Boolean list-suffix test. -/
def suffixOfB (pat l : List Char) : Bool := prefixOfB pat.reverse l.reverse

/-- Boolean substring test, modelling `String.prototype.includes`. -/
def infixOfB (pat : List Char) : List Char → Bool
  | [] => prefixOfB pat []
  | c :: rest => prefixOfB pat (c :: rest) || infixOfB pat rest

/-- Deduplicate preserving the first occurrence, i.e. `new Set(array)`
iterated in insertion order. -/
def insertionDedup (l : List String) : List String :=
  l.foldl (fun acc x => if acc.contains x then acc else acc ++ [x]) []

/-! ### A small regular-expression engine

The source uses a fixed set of regular expressions built from literals,
single-character classes, greedy `*`/`+` over single-character classes,
greedy `?`, alternation and capture groups.  `reMatch` enumerates the
match states at one start position in JavaScript backtracking priority
order (greedy first, left alternative first), so the head of the returned
list is the match JavaScript would produce at that position. -/

/-- Capture environment: group index ↦ captured characters. -/
abbrev Caps := List (Nat × List Char)

inductive RE where
  | eps : RE
  | cls (p : Char → Bool) : RE
  | lit (cs : List Char) : RE
  | seq (a b : RE) : RE
  | alt (a b : RE) : RE
  | opt (a : RE) : RE
  | star (p : Char → Bool) : RE
  | plus (p : Char → Bool) : RE
  | group (i : Nat) (a : RE) : RE

/-- Suffixes after a greedy class-star, longest consumption first. -/
def starSplits (p : Char → Bool) (s : List Char) : List (List Char) :=
  let k := (s.takeWhile p).length
  (List.range (k + 1)).map (fun j => s.drop (k - j))

/-- All match continuations of `r` against `s`, in backtracking priority
order; each is the remaining suffix plus the captures recorded so far. -/
def reMatch : RE → List Char → Caps → List (List Char × Caps)
  | .eps, s, c => [(s, c)]
  | .cls p, s, c =>
    match s with
    | [] => []
    | ch :: rest => if p ch then [(rest, c)] else []
  | .lit cs, s, c => if prefixOfB cs s then [(s.drop cs.length, c)] else []
  | .seq a b, s, c => (reMatch a s c).flatMap (fun sc => reMatch b sc.1 sc.2)
  | .alt a b, s, c => reMatch a s c ++ reMatch b s c
  | .opt a, s, c => reMatch a s c ++ [(s, c)]
  | .star p, s, c => (starSplits p s).map (fun s2 => (s2, c))
  | .plus p, s, c =>
    match s with
    | [] => []
    | ch :: rest => if p ch then (starSplits p rest).map (fun s2 => (s2, c)) else []
  | .group i a, s, c =>
    (reMatch a s c).map (fun sc => (sc.1, (i, s.take (s.length - sc.1.length)) :: sc.2))

/-- Whether `r` matches at the very start of `s` (used for the `^`-anchored
patterns, which `RegExp.prototype.test` can only match at index 0 because
the source does not set the `m` flag). -/
def reTestAnchored (r : RE) (s : String) : Bool := !(reMatch r s.data []).isEmpty

/-- Embeds `String.prototype.match` for an unanchored pattern: scan start
positions left to right, return the first match's whole text (`m[0]`) and
captures. -/
def reSearch (r : RE) : List Char → Option (List Char × Caps)
  | [] =>
    match reMatch r [] [] with
    | m :: _ => some ([], m.2)
    | [] => none
  | c :: rest =>
    match reMatch r (c :: rest) [] with
    | m :: _ => some ((c :: rest).take ((c :: rest).length - m.1.length), m.2)
    | [] => reSearch r rest

/-- Sequence a list of regular expressions. -/
def reSeq (l : List RE) : RE := l.foldr RE.seq RE.eps

/-! ### The structural patterns of `identifyCodeBoundaries` -/

/-- Embeds `(export\s+)?` and friends: an optional keyword followed by mandatory
whitespace. -/
def optKw (w : String) : RE := .opt (.seq (.lit w.data) (.plus jsWs))

def kw (w : String) : RE := .seq (.lit w.data) (.plus jsWs)

/-- Embeds `/^\s*(export\s+)?(async\s+)?function\s+\w+/` -/
def fnPat1 : RE := reSeq [.star jsWs, optKw "export", optKw "async", kw "function", .plus jsWord]

/-- Embeds `/^\s*(export\s+)?(const|let|var)\s+\w+\s*=\s*(async\s+)?\(/` -/
def fnPat2 : RE := reSeq [.star jsWs, optKw "export",
  .alt (.lit "const".data) (.alt (.lit "let".data) (.lit "var".data)), .plus jsWs,
  .plus jsWord, .star jsWs, .cls (· = '='), .star jsWs, optKw "async", .cls (· = '(')]

/-- Embeds `/^\s*(public|private|protected|static)\s+(async\s+)?\w+\s*\(/` -/
def fnPat3 : RE := reSeq [.star jsWs,
  .alt (.lit "public".data) (.alt (.lit "private".data)
    (.alt (.lit "protected".data) (.lit "static".data))), .plus jsWs,
  optKw "async", .plus jsWord, .star jsWs, .cls (· = '(')]

/-- Embeds `/^\s*\w+\s*\([^)]*\)\s*\{/` -/
def fnPat4 : RE := reSeq [.star jsWs, .plus jsWord, .star jsWs, .cls (· = '('),
  .star (· ≠ ')'), .cls (· = ')'), .star jsWs, .cls (· = '\x7b')]

/-- Embeds `/^\s*(export\s+)?(abstract\s+)?class\s+\w+/` -/
def clsPat1 : RE := reSeq [.star jsWs, optKw "export", optKw "abstract", kw "class", .plus jsWord]

/-- Embeds `/^\s*(export\s+)?interface\s+\w+/` -/
def clsPat2 : RE := reSeq [.star jsWs, optKw "export", kw "interface", .plus jsWord]

/-- Embeds `/^\s*(export\s+)?type\s+\w+\s*=/` -/
def clsPat3 : RE := reSeq [.star jsWs, optKw "export", kw "type", .plus jsWord,
  .star jsWs, .cls (· = '=')]

/-- Embeds `/^\s*(export\s+)?enum\s+\w+/` -/
def clsPat4 : RE := reSeq [.star jsWs, optKw "export", kw "enum", .plus jsWord]

def functionPatterns : List RE := [fnPat1, fnPat2, fnPat3, fnPat4]

def classPatterns : List RE := [clsPat1, clsPat2, clsPat3, clsPat4]

/-- One line of `identifyCodeBoundaries`'s scan: does any structural
pattern match this line? -/
def isBoundaryLine (line : String) : Bool :=
  (functionPatterns.any (reTestAnchored · line)) || (classPatterns.any (reTestAnchored · line))

/-- Embeds `identifyCodeBoundaries`: the set of line indices whose line matches a
structural pattern (a `Set<number>`, represented as the sorted list of its
elements; only membership is ever consulted). -/
def identifyCodeBoundaries (lines : List String) : List Nat :=
  (List.range lines.length).filter (fun i => isBoundaryLine (lines.getD i ""))

/-! ### `extractChunkMetadata` -/

/-- The function alternation of `extractChunkMetadata`'s first regex:
`(?:export\s+)?(?:async\s+)?function\s+(\w+)` `|`
`(?:const|let|var)\s+(\w+)\s*=\s*(?:async\s+)?\(` `|`
`(?:public|private|protected|static)\s+(?:async\s+)?(\w+)\s*\(`. -/
def fnSearchRE : RE :=
  .alt (reSeq [optKw "export", optKw "async", kw "function", .group 1 (.plus jsWord)])
    (.alt (reSeq [.alt (.lit "const".data) (.alt (.lit "let".data) (.lit "var".data)),
        .plus jsWs, .group 2 (.plus jsWord), .star jsWs, .cls (· = '='), .star jsWs,
        optKw "async", .cls (· = '(')])
      (reSeq [.alt (.lit "public".data) (.alt (.lit "private".data)
          (.alt (.lit "protected".data) (.lit "static".data))), .plus jsWs,
        optKw "async", .group 3 (.plus jsWord), .star jsWs, .cls (· = '(')]))

/-- The class alternation of `extractChunkMetadata`'s second regex:
`(?:export\s+)?(?:abstract\s+)?class\s+(\w+)` `|`
`(?:export\s+)?interface\s+(\w+)` `|` `(?:export\s+)?type\s+(\w+)\s*=`. -/
def clsSearchRE : RE :=
  .alt (reSeq [optKw "export", optKw "abstract", kw "class", .group 1 (.plus jsWord)])
    (.alt (reSeq [optKw "export", kw "interface", .group 2 (.plus jsWord)])
      (reSeq [optKw "export", kw "type", .group 3 (.plus jsWord), .star jsWs, .cls (· = '=')]))

/-- Embeds `m[1] || m[2] || m[3]`: the first present capture (all captures here are
`\w+`, hence non-empty, so JS truthiness is just presence). -/
def firstCap (caps : Caps) : String :=
  match caps.lookup 1 with
  | some v => ⟨v⟩
  | none =>
    match caps.lookup 2 with
    | some v => ⟨v⟩
    | none =>
      match caps.lookup 3 with
      | some v => ⟨v⟩
      | none => ""

/-- Embeds `extractChunkMetadata`: search the whole chunk text for a function
pattern, then for a class pattern; label classes by substring tests on the
whole matched text `m[0]`. -/
def extractChunkMetadata (text : String) : Option String :=
  match reSearch fnSearchRE text.data with
  | some m => some ("Function: " ++ firstCap m.2)
  | none =>
    match reSearch clsSearchRE text.data with
    | some m =>
      let ty : String :=
        if infixOfB "interface".data m.1 then "Interface"
        else if infixOfB "type".data m.1 then "Type"
        else "Class"
      some (ty ++ ": " ++ firstCap m.2)
    | none => none

/-! ### Configuration, chunks, tokenization -/

def OPTIMAL_MODEL_ID : String := "Xenova/all-MiniLM-L6-v2"
def OPTIMAL_TOP_K : Nat := 6
def OPTIMAL_MAX_CHUNK_LINES : Nat := 48
def OPTIMAL_CHUNK_OVERLAP_LINES : Nat := 8
def LEXICAL_CANDIDATE_MULTIPLIER : Nat := 12
def PERSISTED_INDEX_VERSION : Int := 1

structure RetrieverConfig where
  rootDir : String
  modelId : String
  topK : Nat
  maxChunkLines : Nat
  chunkOverlapLines : Nat
deriving DecidableEq

/-- The constructor defaults of `CodebaseContextRetriever`. -/
def defaultConfig (rootDir : String) : RetrieverConfig :=
  ⟨rootDir, OPTIMAL_MODEL_ID, OPTIMAL_TOP_K, OPTIMAL_MAX_CHUNK_LINES, OPTIMAL_CHUNK_OVERLAP_LINES⟩

structure Chunk where
  filePath : String
  startLine : Nat
  endLine : Nat
  text : String
  lexicalTerms : List String
deriving DecidableEq

/-- Maximal runs of characters satisfying `p` (via a right fold so that the
definition is structural and kernel-reducible).  The Boolean component of
the accumulator records whether the head group is an open run. -/
def charRuns (p : Char → Bool) (l : List Char) : List (List Char) :=
  (l.foldr
    (fun c acc =>
      if p c then
        match acc with
        | (g :: gs, true) => ((c :: g) :: gs, true)
        | (gs, _) => ([c] :: gs, true)
      else (acc.1, false))
    ([], false)).1

/-- Embeds `tokenize`: lowercase, extract the maximal `[a-z0-9_]` runs of length
at least 3 (the matches of `/[a-z0-9_]{3,}/g`), and collect them into a
`Set` in insertion order. -/
def tokenize (input : String) : List String :=
  insertionDedup (((charRuns tokChar (jsToLower input).data).filter (3 ≤ ·.length)).map (⟨·⟩))

/-! ### Chunking -/

/-- Embeds `const step = Math.max(1, this.maxChunkLines - this.chunkOverlapLines)`. -/
def stepSize (cfg : RetrieverConfig) : Nat := max 1 (cfg.maxChunkLines - cfg.chunkOverlapLines)

/-- Embeds `const end = Math.min(lines.length, start + this.maxChunkLines)`. -/
def baseEnd (cfg : RetrieverConfig) (len start : Nat) : Nat := min len (start + cfg.maxChunkLines)

/-- Embeds `alignToCodeBoundary`: the first boundary index in
`[end, min(end + 5, start + maxChunkLines))`, or `end`. -/
def alignToCodeBoundary (cfg : RetrieverConfig) (boundaries : List Nat)
    (start e : Nat) : Nat :=
  match (List.range' e (min (e + 5) (start + cfg.maxChunkLines) - e)).find?
      (fun i => boundaries.contains i) with
  | some i => i
  | none => e

/-- The aligned end of the window starting at `s`. -/
def alignedEnd (cfg : RetrieverConfig) (lines : List String) (boundaries : List Nat)
    (s : Nat) : Nat :=
  alignToCodeBoundary cfg boundaries s (baseEnd cfg lines.length s)

/-- Embeds `lines.slice(start, alignedEnd).join("\n").trim()`. -/
def windowText (cfg : RetrieverConfig) (lines : List String) (boundaries : List Nat)
    (s : Nat) : String :=
  jsTrim (joinNL ((lines.drop s).take (alignedEnd cfg lines boundaries s - s)))

/-- Embeds `chunkMetadata ? `[${chunkMetadata}]\n${text}` : text`. -/
def applyMetadataTag (text : String) : String :=
  match extractChunkMetadata text with
  | some m => "[" ++ m ++ "]\n" ++ text
  | none => text

/-- The body of one iteration of `chunkFileContent`'s window loop: build the
chunk at window start `s`, or nothing if its trimmed text is empty. -/
def mkChunkAt (cfg : RetrieverConfig) (relativePath : String) (lines : List String)
    (boundaries : List Nat) (s : Nat) : Option Chunk :=
  let text := windowText cfg lines boundaries s
  if text = "" then none
  else some ⟨relativePath, s + 1, alignedEnd cfg lines boundaries s,
    applyMetadataTag text, tokenize text⟩

/-- The window start indices `0, step, 2·step, …` below `len`. -/
def windowStarts (step len : Nat) : List Nat :=
  List.range' 0 ((len + step - 1) / step) step

/-- Embeds `chunkFileContent`. -/
def chunkFileContent (cfg : RetrieverConfig) (relativePath content : String) : List Chunk :=
  let lines := splitLines content
  let boundaries := identifyCodeBoundaries lines
  (windowStarts (stepSize cfg) lines.length).filterMap
    (mkChunkAt cfg relativePath lines boundaries)

/-! ### Relevance scores

The source computes `overlap / Math.sqrt(Math.max(1, qs * cs))` and, in the
reranking stage, `lexical * 0.2 + vector * 0.8`.  Scores are kept
symbolically so that score comparison (the sort comparator) is a computable
function that provably decides the comparison of the real values. -/

/-- A lexical score `overlap / sqrt (max 1 sizeProd)`. -/
structure LexScore where
  overlap : Nat
  sizeProd : Nat
deriving DecidableEq

/-- A score as stored in a ranked entry: either a pure lexical score or the
blend `lex * 0.2 + vec * 0.8` of the reranking stage. -/
inductive Score where
  | lex (s : LexScore) : Score
  | blended (s : LexScore) (vec : ℚ) : Score
deriving DecidableEq

/-- A value of the shape `num / sqrt (max 1 rad) + off` with `num ≥ 0`. -/
structure SqrtTerm where
  num : ℚ
  rad : Nat
  off : ℚ
deriving DecidableEq

def Score.toTerm : Score → SqrtTerm
  | .lex s => ⟨(s.overlap : ℚ), s.sizeProd, 0⟩
  | .blended s v => ⟨(s.overlap : ℚ) / 5, s.sizeProd, 4 * v / 5⟩

/-- The real value denoted by a `SqrtTerm`. -/
noncomputable def termVal (t : SqrtTerm) : ℝ :=
  (t.num : ℝ) / Real.sqrt ((max 1 t.rad : Nat) : ℝ) + (t.off : ℝ)

/-- The real value of a score (the float the source computes, idealized). -/
noncomputable def scoreVal (x : Score) : ℝ := termVal x.toTerm

/-- Decide `a / sqrt (max 1 P) - b / sqrt (max 1 Q) ≥ c` for `a, b ≥ 0` by
rational arithmetic (case analysis and squaring; `decSqrtDiffGe_iff` below
proves that this is the comparison of the denoted real values). -/
def decSqrtDiffGe (a : ℚ) (P : Nat) (b : ℚ) (Q : Nat) (c : ℚ) : Bool :=
  if c ≤ 0 ∧ b ^ 2 / ((max 1 Q : Nat) : ℚ) ≤ c ^ 2 then true
  else if 0 ≤ c then
    decide (0 ≤ a ^ 2 / ((max 1 P : Nat) : ℚ) - b ^ 2 / ((max 1 Q : Nat) : ℚ) - c ^ 2 ∧
      4 * (b ^ 2 / ((max 1 Q : Nat) : ℚ)) * c ^ 2 ≤
        (a ^ 2 / ((max 1 P : Nat) : ℚ) - b ^ 2 / ((max 1 Q : Nat) : ℚ) - c ^ 2) ^ 2)
  else
    decide (0 ≤ a ^ 2 / ((max 1 P : Nat) : ℚ) - b ^ 2 / ((max 1 Q : Nat) : ℚ) - c ^ 2 ∨
      (a ^ 2 / ((max 1 P : Nat) : ℚ) - b ^ 2 / ((max 1 Q : Nat) : ℚ) - c ^ 2) ^ 2 ≤
        4 * (b ^ 2 / ((max 1 Q : Nat) : ℚ)) * c ^ 2)

/-- The sort comparator: decides `scoreVal y ≤ scoreVal x`, i.e. the
source's `(left, right) => right.score - left.score` descending numeric
comparison (see `scoreGe_iff`). -/
def scoreGe (x y : Score) : Bool :=
  decSqrtDiffGe x.toTerm.num x.toTerm.rad y.toTerm.num y.toTerm.rad
    (y.toTerm.off - x.toTerm.off)

/-- Insert `x` before the first element `y` with `le x y`; the building
block of a stable sort. -/
def stableInsert (le : α → α → Bool) (x : α) : List α → List α
  | [] => [x]
  | y :: ys => if le x y then x :: y :: ys else y :: stableInsert le x ys

/-- Stable sort placing each element before the first later element it
compares `le` to.  For a total preorder this is *the* stable sort, hence
exactly ECMAScript's (stable) `Array.prototype.sort`. -/
def stableSortBy (le : α → α → Bool) (l : List α) : List α :=
  l.foldr (stableInsert le) []

/-! ### The lexical stage of `rankChunks` -/

/-- The token-overlap loop of `rankChunks`: how many of the query's tokens
the chunk's term set contains. -/
def overlapCount (queryTerms chunkTerms : List String) : Nat :=
  (queryTerms.filter (fun t => chunkTerms.contains t)).length

/-- An entry of the candidate list: a chunk plus its score. -/
structure RankedChunk where
  chunk : Chunk
  score : Score
deriving DecidableEq

def Score.lexPart : Score → LexScore
  | .lex s => s
  | .blended s _ => s

/-- The scoring loop of `rankChunks`: score every indexed chunk against
the query's token set, dropping zero-overlap chunks (the `lexicalScores`
map, in index insertion order). -/
def lexScored (indexChunks : List Chunk) (prompt : String) : List RankedChunk :=
  indexChunks.filterMap (fun chunk =>
    let overlap := overlapCount (tokenize prompt) chunk.lexicalTerms
    if overlap = 0 then none
    else some ⟨chunk, .lex ⟨overlap, (tokenize prompt).length * chunk.lexicalTerms.length⟩⟩)

/-- The lexical stage of `rankChunks`: sort the scored chunks descending by
score (stable, in index order) and truncate to
`topK * LEXICAL_CANDIDATE_MULTIPLIER`. -/
def lexicalCandidates (cfg : RetrieverConfig) (indexChunks : List Chunk)
    (prompt : String) : List RankedChunk :=
  (stableSortBy (fun x y => scoreGe x.score y.score) (lexScored indexChunks prompt)).take
    (cfg.topK * LEXICAL_CANDIDATE_MULTIPLIER)

/-! ### The embedding capability and the reranking stage -/

/-- The raw result of `extractor(...).tolist()` as analysed by
`embedBatch`: not an array at all, a flat vector (first element not an
array; this also encodes the empty array), or a matrix. -/
inductive ExtractorRaw where
  | notArray : ExtractorRaw
  | flat (v : List ℚ) : ExtractorRaw
  | matrix (rows : List (List ℚ)) : ExtractorRaw

/-- The external embedding capability (the dynamically imported
`@huggingface/transformers` pipeline), abstracted per spec §1/§6 as a
function from a batch of strings to a raw tensor list. -/
def Extractor := List String → ExtractorRaw

/-- Embeds `embedBatch`'s shape analysis of the raw tensor list. -/
def embedBatchF (f : Extractor) (input : List String) : List (List ℚ) :=
  match f input with
  | .notArray => []
  | .matrix rows => rows
  | .flat v => [v]

/-- Embeds `embedText`: embed a single string, take row 0 if any. -/
def embedTextF (f : Extractor) (input : String) : Option (List ℚ) :=
  (embedBatchF f [input]).head?

/-- Embeds `cosineSimilarity`: a plain dot product, 0 on length mismatch or empty
vectors. -/
def cosineSimilarity (a b : List ℚ) : ℚ :=
  if a.length ≠ b.length || a.length = 0 then 0
  else (List.zipWith (· * ·) a b).sum

/-- Embeds `Array.prototype.map((x, index) => ...)`. -/
def mapWithIndex (f : Nat → α → β) : Nat → List α → List β
  | _, [] => []
  | i, a :: as => f i a :: mapWithIndex f (i + 1) as

/-- The body of the reranking `map`: blend the candidate's lexical score
with the cosine similarity of its embedding (`0` when the batch returned
no row at this index — `candidateEmbeddings[index] ? ... : 0`). -/
def rerankEntry (queryEmbedding : List ℚ) (candidateEmbeddings : List (List ℚ))
    (index : Nat) (candidate : RankedChunk) : RankedChunk :=
  let vectorScore : ℚ :=
    match candidateEmbeddings[index]? with
    | some e => cosineSimilarity queryEmbedding e
    | none => 0
  ⟨candidate.chunk, .blended candidate.score.lexPart vectorScore⟩

/-- Embeds `rankChunks`: lexical narrowing, then—if the embedding capability is
available and the query embedding was obtained—on-demand semantic
reranking by the blended score `lexical * 0.2 + cosine * 0.8`. -/
def rankChunks (cfg : RetrieverConfig) (indexChunks : List Chunk) (prompt : String)
    (extractor : Option Extractor) : List RankedChunk :=
  let cands := lexicalCandidates cfg indexChunks prompt
  if cands.isEmpty then []
  else
    match extractor with
    | none => cands
    | some f =>
      match embedTextF f prompt with
      | none => cands
      | some queryEmbedding =>
        let candidateEmbeddings := embedBatchF f (cands.map (·.chunk.text))
        let reranked := mapWithIndex (rerankEntry queryEmbedding candidateEmbeddings) 0 cands
        stableSortBy (fun x y => scoreGe x.score y.score) reranked

/-! ### Fingerprint -/

structure IndexFingerprintEntry where
  path : String
  size : Nat
  mtimeMs : Nat
deriving DecidableEq

/-- Lexicographic comparison of character lists (the embedding of the
source's `left.path.localeCompare(right.path)` comparator; `localeCompare`
is modelled as code-point order). -/
def lexLeB : List Char → List Char → Bool
  | [], _ => true
  | _ :: _, [] => false
  | a :: as, b :: bs =>
    if a.toNat < b.toNat then true
    else if b.toNat < a.toNat then false
    else lexLeB as bs

/-- The sort comparator of the fingerprint computation:
`left.path.localeCompare(right.path)`. -/
def entryPathLe (l r : IndexFingerprintEntry) : Bool := lexLeB l.path.data r.path.data

/-- Embeds `${entry.path}:${entry.size}:${entry.mtimeMs}`. -/
def fingerprintLine (e : IndexFingerprintEntry) : String :=
  e.path ++ ":" ++ toString e.size ++ ":" ++ toString e.mtimeMs

/-- Embeds `Array.prototype.join("|")`. -/
def joinBar : List String → String
  | [] => ""
  | [a] => a
  | a :: b :: rest => a ++ "|" ++ joinBar (b :: rest)

/-- The fingerprint computation of `rebuildIndexIfNeeded`: sort the entries
by path, render each as `path:size:mtimeMs`, join with `|`. -/
def fingerprintOfEntries (entries : List IndexFingerprintEntry) : String :=
  joinBar ((stableSortBy entryPathLe entries).map fingerprintLine)

/-! ### Persisted index -/

structure PersistedChunk where
  filePath : String
  startLine : Nat
  endLine : Nat
  text : String
  lexicalTerms : List String
deriving DecidableEq

/-- The result of `JSON.parse` on the cache file, as consulted by the
loaders: each field is `none` when absent or of the wrong type (JavaScript
`undefined` on property access), `chunksArr` is `some` exactly when
`Array.isArray(parsed.chunks)` holds. -/
structure ParsedIndex where
  version : Option Int
  modelId : Option String
  fingerprint : Option String
  maxChunkLines : Option Int
  chunkOverlapLines : Option Int
  chunksArr : Option (List PersistedChunk)

/-- A parse oracle modelling `JSON.parse` inside `try { ... } catch`:
`none` is a parse failure (or a parsed value whose property access
throws). -/
def ParseOracle := String → Option ParsedIndex

/-- Rehydrate a persisted chunk (`new Set(chunk.lexicalTerms)`). -/
def persistedToChunk (c : PersistedChunk) : Chunk :=
  ⟨c.filePath, c.startLine, c.endLine, c.text, insertionDedup c.lexicalTerms⟩

/-- Embeds `tryLoadPersistedIndex`: `raw` is the result of `safeRead` on the cache
file (`none` = unreadable; note `!raw` is also true for an empty string).
Returns the rehydrated chunks only if version, fingerprint, model and
chunking parameters all match exactly and `chunks` is an array. -/
def tryLoadPersistedIndex (cfg : RetrieverConfig) (fingerprint : String)
    (raw : Option String) (parse : ParseOracle) : Option (List Chunk) :=
  match raw with
  | none => none
  | some raw =>
    if raw = "" then none
    else
      match parse raw with
      | none => none
      | some parsed =>
        if parsed.version = some PERSISTED_INDEX_VERSION ∧
            parsed.fingerprint = some fingerprint ∧
            parsed.modelId = some cfg.modelId ∧
            parsed.maxChunkLines = some (cfg.maxChunkLines : Int) ∧
            parsed.chunkOverlapLines = some (cfg.chunkOverlapLines : Int) ∧
            parsed.chunksArr.isSome
        then some ((parsed.chunksArr.getD []).map persistedToChunk)
        else none

/-! ### Retriever state and `getContextForPrompt` -/

/-- The mutable fields of `CodebaseContextRetriever` relevant to the query
path.  `indexFingerprint` is `Option String` because the sync cache load
can assign JavaScript `undefined` to it (missing `fingerprint` field). -/
structure RetrieverState where
  indexChunks : List Chunk
  indexFingerprint : Option String
  indexingStarted : Bool

/-- The environment a query call runs in: the synchronously readable cache
file content, the JSON parse oracle, and the (optional) embedding
capability. -/
structure QueryEnv where
  cacheRaw : Option String
  parse : ParseOracle
  extractor : Option Extractor

/-- Embeds `tryLoadCachedIndexSync`: best-effort synchronous cache read for
immediate availability; validates only the version and that `chunks` is an
array; all errors are silently ignored. -/
def tryLoadCachedIndexSync (env : QueryEnv) (st : RetrieverState) : RetrieverState :=
  match env.cacheRaw with
  | none => st
  | some raw =>
    match env.parse raw with
    | none => st
    | some parsed =>
      if parsed.version = some PERSISTED_INDEX_VERSION ∧ parsed.chunksArr.isSome then
        { st with
          indexChunks := (parsed.chunksArr.getD []).map persistedToChunk,
          indexFingerprint := parsed.fingerprint }
      else st

/-- Embeds `startIndexingIfNeeded`: on the first call, mark indexing started, do
the synchronous best-effort cache load.  The `ensureIndex()` background
rebuild is fire-and-forget: in the single-threaded event loop it reaches
its first `await` (a file read) before mutating any state, so it has no
effect on the synchronous remainder of the current call. -/
def startIndexingIfNeeded (env : QueryEnv) (st : RetrieverState) : RetrieverState :=
  if st.indexingStarted then st
  else tryLoadCachedIndexSync env { st with indexingStarted := true }

/-- Embeds `path.isAbsolute`, POSIX flavour. -/
def isAbsolutePath (s : String) : Bool := prefixOfB ['/'] s.data

/-- Embeds `String.prototype.replace(/\\/g, "/")`. -/
def backToForward (s : String) : String :=
  ⟨s.data.map (fun c => if c = '\\' then '/' else c)⟩

/-- Split a POSIX path into its non-empty segments. -/
def pathSegments (s : String) : List String :=
  ((s.data.foldr
    (fun c acc => if c = '/' then ([], acc.1 :: acc.2) else (c :: acc.1, acc.2))
    ([], [])) |> fun acc => acc.1 :: acc.2) |>.filterMap
    (fun seg => if seg.isEmpty then none else some (⟨seg⟩ : String))

def dropCommonPrefixLen : List String → List String → Nat
  | a :: as, b :: bs => if a = b then 1 + dropCommonPrefixLen as bs else 0
  | _, _ => 0

/-- Embeds `path.relative` (POSIX, both arguments taken as already-resolved
absolute paths, which is how the source calls it). -/
def pathRelative (fromPath toPath : String) : String :=
  let fs := pathSegments fromPath
  let ts := pathSegments toPath
  let k := dropCommonPrefixLen fs ts
  joinSlash ((List.replicate (fs.length - k) "..") ++ ts.drop k)
where
  joinSlash : List String → String
    | [] => ""
    | [a] => a
    | a :: b :: rest => a ++ "/" ++ joinSlash (b :: rest)

/-- Embeds `normalizeFilePath`. -/
def normalizeFilePath (cfg : RetrieverConfig) (filePath : Option String) : Option String :=
  match filePath with
  | none => none
  | some fp =>
    if jsTrim fp = "" then none
    else
      let normalized :=
        let t := backToForward (jsTrim fp)
        if prefixOfB "./".data t.data then ⟨t.data.drop 2⟩ else t
      if isAbsolutePath normalized then
        let relative := backToForward (pathRelative cfg.rootDir normalized)
        if !prefixOfB "..".data relative.data && !isAbsolutePath relative then some relative
        else some normalized
      else some normalized

/-- Embeds `isSameFile`: case-insensitive, separator-normalized path equality. -/
def isSameFile (left right : String) : Bool :=
  jsToLower (backToForward left) = jsToLower (backToForward right)

/-- Embeds `String.prototype.replace(/\s+/g, " ")` (via a right fold: each maximal
whitespace run becomes one space). -/
def collapseWs (s : String) : String :=
  ⟨(s.data.foldr
    (fun c acc =>
      if jsWs c then
        if acc.2 then acc else (' ' :: acc.1, true)
      else (c :: acc.1, false))
    ([], false)).1⟩

/-- Embeds `summarizeChunk`: first non-blank trimmed line, whitespace collapsed,
truncated to 180 characters with an ellipsis. -/
def summarizeChunk (text : String) : String :=
  match ((splitLines text).map jsTrim).find? (fun line => line.length > 0) with
  | none => "No readable content available."
  | some firstLine =>
    let compact := collapseWs firstLine
    if compact.length > 180 then ⟨compact.data.take 177⟩ ++ "..." else compact

/-- Embeds `Array.prototype.join(sep)` for an arbitrary separator. -/
def joinSep (sep : String) : List String → String
  | [] => ""
  | [a] => a
  | a :: b :: rest => a ++ sep ++ joinSep sep (b :: rest)

/-- Embeds `formatContext`. -/
def formatContext (selected : List Chunk) (activeFile : Option String)
    (activeFileChunks : List Chunk) : String :=
  let sections :=
    (match activeFile with
     | none => []
     | some af =>
       let summary :=
         match activeFileChunks.head? with
         | some c => summarizeChunk c.text
         | none => "No indexed excerpt available."
       let parts :=
         ["=== ACTIVE FILE (PRIMARY TARGET) ===",
          "File path: " ++ af,
          "Summary: " ++ summary,
          ""] ++
         (if activeFileChunks.length > 0 then
           ["Code excerpts from active file:\n" ++
            joinSep "\n\n" (activeFileChunks.map (fun c =>
              "Lines " ++ toString c.startLine ++ "-" ++ toString c.endLine ++ ":\n" ++
              "```\n" ++ c.text ++ "\n```"))]
          else [])
       [joinSep "\n" parts]) ++
    (if selected.length > 0 then
      [("=== REFERENCE CONTEXT (for patterns/conventions only) ===\n" ++
        joinSep "\n\n" (selected.map (fun c =>
          "File: " ++ c.filePath ++ " (lines " ++ toString c.startLine ++ "-" ++
          toString c.endLine ++ ")\n" ++ "```\n" ++ c.text ++ "\n```")))]
     else [])
  joinSep "\n\n" sections

/-- Embeds `getContextForPrompt`: the public query entry point.  Returns the
formatted context (or `none`) together with the retriever state as left by
the call's synchronous section. -/
def getContextForPrompt (cfg : RetrieverConfig) (env : QueryEnv) (st : RetrieverState)
    (prompt : String) (activeFile : Option String) : Option String × RetrieverState :=
  if jsTrim prompt = "" then (none, st)
  else
    let st1 := startIndexingIfNeeded env st
    if st1.indexChunks.length = 0 then (none, st1)
    else
      let rankedChunks := rankChunks cfg st1.indexChunks prompt env.extractor
      let selected := (rankedChunks.take cfg.topK).map (·.chunk)
      let normalizedActiveFile := normalizeFilePath cfg activeFile
      let activeFileChunks :=
        match normalizedActiveFile with
        | some f => (st1.indexChunks.filter (fun c => isSameFile c.filePath f)).take 2
        | none => []
      if selected.length == 0 && activeFileChunks.length == 0 then (none, st1)
      else (some (formatContext selected normalizedActiveFile activeFileChunks), st1)

/-! ### Lemmas: stable sort -/

theorem stableInsert_perm (le : α → α → Bool) (x : α) (l : List α) :
    List.Perm (stableInsert le x l) (x :: l) := by
  induction l with
  | nil => simp [stableInsert]
  | cons y ys ih =>
    simp only [stableInsert]
    split
    · exact List.Perm.refl _
    · exact ((ih.cons y).trans (List.Perm.swap x y ys))

theorem stableSortBy_perm (le : α → α → Bool) (l : List α) :
    List.Perm (stableSortBy le l) l := by
  induction l with
  | nil => exact List.Perm.refl _
  | cons x xs ih =>
    exact (stableInsert_perm le x (stableSortBy le xs)).trans (ih.cons x)

theorem mem_stableSortBy (le : α → α → Bool) (l : List α) (a : α) :
    a ∈ stableSortBy le l ↔ a ∈ l :=
  (stableSortBy_perm le l).mem_iff

theorem pairwise_stableInsert (le : α → α → Bool)
    (htot : ∀ a b, le a b = true ∨ le b a = true)
    (htrans : ∀ a b c, le a b = true → le b c = true → le a c = true)
    (x : α) (l : List α) (h : l.Pairwise (fun a b => le a b = true)) :
    (stableInsert le x l).Pairwise (fun a b => le a b = true) := by
  induction l with
  | nil => simp [stableInsert]
  | cons y ys ih =>
    rcases h with _ | ⟨hy, hys⟩
    simp only [stableInsert]
    split
    · rename_i hxy
      refine List.Pairwise.cons ?_ (List.Pairwise.cons hy hys)
      intro z hz
      rw [List.mem_cons] at hz
      rcases hz with rfl | hz
      · exact hxy
      · exact htrans x y z hxy (hy z hz)
    · rename_i hxy
      have hyx : le y x = true := (htot x y).resolve_left hxy
      refine List.Pairwise.cons ?_ (ih hys)
      intro z hz
      rw [(stableInsert_perm le x ys).mem_iff, List.mem_cons] at hz
      rcases hz with rfl | hz
      · exact hyx
      · exact hy z hz

theorem pairwise_stableSortBy (le : α → α → Bool)
    (htot : ∀ a b, le a b = true ∨ le b a = true)
    (htrans : ∀ a b c, le a b = true → le b c = true → le a c = true)
    (l : List α) : (stableSortBy le l).Pairwise (fun a b => le a b = true) := by
  induction l with
  | nil => exact List.Pairwise.nil
  | cons x xs ih => exact pairwise_stableInsert le htot htrans x _ ih

/-! ### Lemmas: the score comparator decides the real comparison -/

theorem sq_le_sq_iff_real {x y : ℝ} (hx : 0 ≤ x) (hy : 0 ≤ y) :
    x ≤ y ↔ x ^ 2 ≤ y ^ 2 :=
  (pow_le_pow_iff_left₀ hx hy (by norm_num)).symm

theorem decSqrtDiffGe_iff (a : ℚ) (P : Nat) (b : ℚ) (Q : Nat) (c : ℚ)
    (ha : 0 ≤ a) (hb : 0 ≤ b) :
    decSqrtDiffGe a P b Q c = true ↔
      (c : ℝ) ≤ (a : ℝ) / Real.sqrt ((max 1 P : Nat) : ℝ)
        - (b : ℝ) / Real.sqrt ((max 1 Q : Nat) : ℝ) := by
  have hP : (0 : ℝ) < ((max 1 P : Nat) : ℝ) := by
    have h := le_max_left 1 P
    exact_mod_cast Nat.lt_of_lt_of_le Nat.zero_lt_one h
  have hQ : (0 : ℝ) < ((max 1 Q : Nat) : ℝ) := by
    have h := le_max_left 1 Q
    exact_mod_cast Nat.lt_of_lt_of_le Nat.zero_lt_one h
  set aq : ℚ := a ^ 2 / ((max 1 P : Nat) : ℚ) with haq
  set bq : ℚ := b ^ 2 / ((max 1 Q : Nat) : ℚ) with hbq
  set A : ℝ := (a : ℝ) / Real.sqrt ((max 1 P : Nat) : ℝ) with hA
  set B : ℝ := (b : ℝ) / Real.sqrt ((max 1 Q : Nat) : ℝ) with hB
  have hA0 : 0 ≤ A := div_nonneg (by exact_mod_cast ha) (Real.sqrt_nonneg _)
  have hB0 : 0 ≤ B := div_nonneg (by exact_mod_cast hb) (Real.sqrt_nonneg _)
  have hA2 : A ^ 2 = ((aq : ℚ) : ℝ) := by
    rw [hA, div_pow, Real.sq_sqrt hP.le, haq]
    push_cast
    ring
  have hB2 : B ^ 2 = ((bq : ℚ) : ℝ) := by
    rw [hB, div_pow, Real.sq_sqrt hQ.le, hbq]
    push_cast
    ring
  have hL : (0 ≤ aq - bq - c ^ 2) ↔ (0 ≤ A ^ 2 - B ^ 2 - (c : ℝ) ^ 2) := by
    rw [hA2, hB2,
      show ((aq : ℚ) : ℝ) - ((bq : ℚ) : ℝ) - (c : ℝ) ^ 2 = ((aq - bq - c ^ 2 : ℚ) : ℝ) by
        push_cast; ring]
    exact (Rat.cast_nonneg).symm
  have hS1 : (4 * bq * c ^ 2 ≤ (aq - bq - c ^ 2) ^ 2) ↔
      ((2 * B * (c : ℝ)) ^ 2 ≤ (A ^ 2 - B ^ 2 - (c : ℝ) ^ 2) ^ 2) := by
    rw [show (2 * B * (c : ℝ)) ^ 2 = ((4 * bq * c ^ 2 : ℚ) : ℝ) by
        have : (2 * B * (c : ℝ)) ^ 2 = 4 * B ^ 2 * (c : ℝ) ^ 2 := by ring
        rw [this, hB2]; push_cast; ring,
      show (A ^ 2 - B ^ 2 - (c : ℝ) ^ 2) ^ 2 = (((aq - bq - c ^ 2) ^ 2 : ℚ) : ℝ) by
        rw [hA2, hB2]; push_cast; ring]
    exact (Rat.cast_le).symm
  have hS2 : ((aq - bq - c ^ 2) ^ 2 ≤ 4 * bq * c ^ 2) ↔
      ((A ^ 2 - B ^ 2 - (c : ℝ) ^ 2) ^ 2 ≤ (2 * B * (c : ℝ)) ^ 2) := by
    rw [show (2 * B * (c : ℝ)) ^ 2 = ((4 * bq * c ^ 2 : ℚ) : ℝ) by
        have : (2 * B * (c : ℝ)) ^ 2 = 4 * B ^ 2 * (c : ℝ) ^ 2 := by ring
        rw [this, hB2]; push_cast; ring,
      show (A ^ 2 - B ^ 2 - (c : ℝ) ^ 2) ^ 2 = (((aq - bq - c ^ 2) ^ 2 : ℚ) : ℝ) by
        rw [hA2, hB2]; push_cast; ring]
    exact (Rat.cast_le).symm
  have hCB : (bq ≤ c ^ 2) ↔ (B ^ 2 ≤ (c : ℝ) ^ 2) := by
    rw [hB2, show ((c : ℝ)) ^ 2 = ((c ^ 2 : ℚ) : ℝ) by push_cast; ring]
    exact (Rat.cast_le).symm
  rw [decSqrtDiffGe]
  split_ifs with h1 h2
  · -- c ≤ 0 and B² ≤ c²: B + c ≤ 0 ≤ A
    obtain ⟨hc0, hbc⟩ := h1
    have hc0R : (c : ℝ) ≤ 0 := by exact_mod_cast hc0
    have hBc : B ≤ -(c : ℝ) := by
      have h := hCB.mp hbc
      have : B ^ 2 ≤ (-(c : ℝ)) ^ 2 := by rw [neg_pow]; simpa using h
      exact (sq_le_sq_iff_real hB0 (by linarith)).mpr this
    simp only [true_iff]
    linarith
  · -- 0 ≤ c, ¬(c ≤ 0 ∧ B² ≤ c²): 0 < B + c, square the comparison
    rw [decide_eq_true_eq, hL, hS1]
    have hcR : (0 : ℝ) ≤ (c : ℝ) := by exact_mod_cast h2
    have hBc : 0 < B + (c : ℝ) := by
      rcases lt_or_eq_of_le h2 with hlt | heq
      · have : (0 : ℝ) < (c : ℝ) := by exact_mod_cast hlt
        linarith
      · have hc0 : c ≤ 0 := le_of_eq heq.symm
        have hbcq : ¬ bq ≤ c ^ 2 := fun hh => h1 ⟨hc0, hh⟩
        have hB2pos : ¬ B ^ 2 ≤ (c : ℝ) ^ 2 := fun hh => hbcq (hCB.mpr hh)
        have hc0R : (c : ℝ) = 0 := by exact_mod_cast heq.symm
        rw [hc0R] at hB2pos ⊢
        have : 0 < B := by nlinarith [sq_nonneg B]
        linarith
    have hgoal : ((c : ℝ) ≤ A - B) ↔ (B + (c : ℝ) ≤ A) := by
      constructor <;> intro <;> linarith
    rw [hgoal, sq_le_sq_iff_real hBc.le hA0]
    have expand : (B + (c : ℝ)) ^ 2 ≤ A ^ 2 ↔
        2 * B * (c : ℝ) ≤ A ^ 2 - B ^ 2 - (c : ℝ) ^ 2 := by
      constructor <;> intro <;> nlinarith
    rw [expand]
    have h2Bc : 0 ≤ 2 * B * (c : ℝ) := by positivity
    constructor
    · rintro ⟨hL0, hsq⟩
      exact (sq_le_sq_iff_real h2Bc hL0).mpr hsq
    · intro hle
      have hL0 : 0 ≤ A ^ 2 - B ^ 2 - (c : ℝ) ^ 2 := le_trans h2Bc hle
      exact ⟨hL0, (sq_le_sq_iff_real h2Bc hL0).mp hle⟩
  · -- c < 0 and B² > c²: 0 < B + c still, but now 2Bc ≤ 0
    rw [decide_eq_true_eq, hL, hS2]
    have hc : c < 0 := lt_of_not_ge h2
    have hcR : (c : ℝ) < 0 := by exact_mod_cast hc
    have hbcq : ¬ bq ≤ c ^ 2 := fun hh => h1 ⟨hc.le, hh⟩
    have hBgt : -(c : ℝ) < B := by
      by_contra hcon
      push_neg at hcon
      apply hbcq
      apply hCB.mpr
      have : B ^ 2 ≤ (-(c : ℝ)) ^ 2 := (sq_le_sq_iff_real hB0 (by linarith)).mp hcon
      rw [neg_pow] at this
      simpa using this
    have hBc : 0 < B + (c : ℝ) := by linarith
    have hgoal : ((c : ℝ) ≤ A - B) ↔ (B + (c : ℝ) ≤ A) := by
      constructor <;> intro <;> linarith
    rw [hgoal, sq_le_sq_iff_real hBc.le hA0]
    have expand : (B + (c : ℝ)) ^ 2 ≤ A ^ 2 ↔
        2 * B * (c : ℝ) ≤ A ^ 2 - B ^ 2 - (c : ℝ) ^ 2 := by
      constructor <;> intro <;> nlinarith
    rw [expand]
    have h2Bc : 2 * B * (c : ℝ) ≤ 0 := by nlinarith
    constructor
    · intro hor
      rcases hor with hL0 | hsq
      · linarith
      · by_cases hL0 : 0 ≤ A ^ 2 - B ^ 2 - (c : ℝ) ^ 2
        · linarith
        · push_neg at hL0
          have hnegL : 0 ≤ -(A ^ 2 - B ^ 2 - (c : ℝ) ^ 2) := by linarith
          have hneg2 : 0 ≤ -(2 * B * (c : ℝ)) := by linarith
          have hsq2 : (-(A ^ 2 - B ^ 2 - (c : ℝ) ^ 2)) ^ 2 ≤ (-(2 * B * (c : ℝ))) ^ 2 := by
            rw [neg_pow, neg_pow]
            simpa using hsq
          have := (sq_le_sq_iff_real hnegL hneg2).mpr hsq2
          linarith
    · intro hle
      by_cases hL0 : 0 ≤ A ^ 2 - B ^ 2 - (c : ℝ) ^ 2
      · exact Or.inl hL0
      · right
        push_neg at hL0
        have hnegL : 0 ≤ -(A ^ 2 - B ^ 2 - (c : ℝ) ^ 2) := by linarith
        have hneg2 : 0 ≤ -(2 * B * (c : ℝ)) := by linarith
        have : -(A ^ 2 - B ^ 2 - (c : ℝ) ^ 2) ≤ -(2 * B * (c : ℝ)) := by linarith
        have hsq2 := (sq_le_sq_iff_real hnegL hneg2).mp this
        rw [neg_pow, neg_pow] at hsq2
        simpa using hsq2

theorem Score.toTerm_num_nonneg (x : Score) : 0 ≤ x.toTerm.num := by
  cases x with
  | lex s =>
    simp only [Score.toTerm]
    exact_mod_cast Nat.zero_le s.overlap
  | blended s v =>
    simp only [Score.toTerm]
    positivity

/-- The comparator `scoreGe` decides exactly the descending comparison of
the scores' real values, i.e. the source's numeric sort comparator. -/
theorem scoreGe_iff (x y : Score) : scoreGe x y = true ↔ scoreVal y ≤ scoreVal x := by
  rw [scoreGe, decSqrtDiffGe_iff _ _ _ _ _ (Score.toTerm_num_nonneg x) (Score.toTerm_num_nonneg y)]
  unfold scoreVal termVal
  rw [Rat.cast_sub]
  constructor <;> intro <;> linarith

theorem scoreGe_total (x y : Score) : scoreGe x y = true ∨ scoreGe y x = true := by
  rw [scoreGe_iff, scoreGe_iff]
  exact le_total (scoreVal y) (scoreVal x)

theorem scoreGe_trans (x y z : Score)
    (h1 : scoreGe x y = true) (h2 : scoreGe y z = true) : scoreGe x z = true := by
  rw [scoreGe_iff] at h1 h2 ⊢
  exact le_trans h2 h1

theorem scoreVal_lex (s : LexScore) :
    scoreVal (.lex s) = (s.overlap : ℝ) / Real.sqrt ((max 1 s.sizeProd : Nat) : ℝ) := by
  unfold scoreVal termVal Score.toTerm
  push_cast
  ring

/-! ### Lemmas: chunking -/

theorem mkChunkAt_some_iff (cfg : RetrieverConfig) (p : String) (lines : List String)
    (bnds : List Nat) (s : Nat) (c : Chunk) :
    mkChunkAt cfg p lines bnds s = some c ↔
      windowText cfg lines bnds s ≠ "" ∧
      c = ⟨p, s + 1, alignedEnd cfg lines bnds s,
        applyMetadataTag (windowText cfg lines bnds s),
        tokenize (windowText cfg lines bnds s)⟩ := by
  simp only [mkChunkAt]
  split_ifs with h
  · simp [h]
  · constructor
    · intro hsome
      exact ⟨h, (Option.some_inj.mp hsome).symm⟩
    · intro ⟨_, hc⟩
      rw [hc]

theorem chunkFileContent_mem (cfg : RetrieverConfig) (p content : String) (c : Chunk) :
    c ∈ chunkFileContent cfg p content ↔
      ∃ s ∈ windowStarts (stepSize cfg) (splitLines content).length,
        mkChunkAt cfg p (splitLines content)
          (identifyCodeBoundaries (splitLines content)) s = some c := by
  unfold chunkFileContent
  exact List.mem_filterMap

theorem one_le_stepSize (cfg : RetrieverConfig) : 1 ≤ stepSize cfg := le_max_left 1 _

theorem alignToCodeBoundary_ge (cfg : RetrieverConfig) (bnds : List Nat) (s e : Nat) :
    e ≤ alignToCodeBoundary cfg bnds s e := by
  unfold alignToCodeBoundary
  split
  · rename_i i hfind
    have hmem := List.mem_of_find?_eq_some hfind
    rw [List.mem_range'_1] at hmem
    exact hmem.1
  · exact le_refl e

theorem alignToCodeBoundary_le (cfg : RetrieverConfig) (bnds : List Nat) (s e : Nat)
    (he : e ≤ s + cfg.maxChunkLines) :
    alignToCodeBoundary cfg bnds s e ≤ s + cfg.maxChunkLines := by
  unfold alignToCodeBoundary
  split
  · rename_i i hfind
    have hmem := List.mem_of_find?_eq_some hfind
    rw [List.mem_range'_1] at hmem
    have := hmem.2
    omega
  · exact he

/-- If every boundary is below `e`, alignment does not move `e`. -/
theorem alignToCodeBoundary_of_lt (cfg : RetrieverConfig) (bnds : List Nat) (s e : Nat)
    (h : ∀ i ∈ bnds, i < e) : alignToCodeBoundary cfg bnds s e = e := by
  unfold alignToCodeBoundary
  have hnone : (List.range' e (min (e + 5) (s + cfg.maxChunkLines) - e)).find?
      (fun i => bnds.contains i) = none := by
    rw [List.find?_eq_none]
    intro x hx
    rw [List.mem_range'_1] at hx
    intro hcon
    have hmem : x ∈ bnds := by simpa using hcon
    exact absurd (h x hmem) (Nat.not_lt.mpr hx.1)
  rw [hnone]

theorem identifyCodeBoundaries_lt (lines : List String) (i : Nat)
    (h : i ∈ identifyCodeBoundaries lines) : i < lines.length := by
  unfold identifyCodeBoundaries at h
  have := List.mem_of_mem_filter h
  rwa [List.mem_range] at this

theorem splitLinesAux_ne_nil (l acc : List Char) : splitLinesAux l acc ≠ [] := by
  induction l generalizing acc with
  | nil => simp [splitLinesAux]
  | cons c rest ih =>
    rw [splitLinesAux.eq_def]
    split
    · simp
    · simp
    · simp
    · rename_i c2 rest2 h1 h2
      injection h2 with hc hr
      subst hr
      exact ih _

theorem splitLines_ne_nil (s : String) : splitLines s ≠ [] := splitLinesAux_ne_nil _ _

theorem splitLines_length_pos (s : String) : 1 ≤ (splitLines s).length :=
  List.length_pos.mpr (splitLines_ne_nil s)

theorem stepSize_le (cfg : RetrieverConfig) (hmax : 1 ≤ cfg.maxChunkLines) :
    stepSize cfg ≤ cfg.maxChunkLines :=
  max_le hmax (Nat.sub_le _ _)

theorem mem_windowStarts (step len x : Nat) :
    x ∈ windowStarts step len ↔ ∃ i < (len + step - 1) / step, x = step * i := by
  unfold windowStarts
  rw [List.mem_range']
  constructor
  · rintro ⟨i, hi, rfl⟩
    exact ⟨i, hi, by omega⟩
  · rintro ⟨i, hi, rfl⟩
    exact ⟨i, hi, by omega⟩

theorem windowStarts_next (step len x : Nat) (hstep : 1 ≤ step)
    (hx : x ∈ windowStarts step len) (h : x + step < len) :
    x + step ∈ windowStarts step len := by
  rw [mem_windowStarts] at hx ⊢
  obtain ⟨i, hi, rfl⟩ := hx
  refine ⟨i + 1, ?_, by ring⟩
  have hle : (i + 2) * step ≤ len + step - 1 := by
    have h2 : step * i + step + 1 ≤ len := h
    calc (i + 2) * step = step * i + 2 * step := by ring
    _ ≤ len + step - 1 := by omega
  have := (Nat.le_div_iff_mul_le (by omega : 0 < step)).mpr hle
  omega

theorem windowStarts_single (step len : Nat) (hstep : 1 ≤ step)
    (h1 : 1 ≤ len) (h2 : len ≤ step) : windowStarts step len = [0] := by
  unfold windowStarts
  have hn : (len + step - 1) / step = 1 := by
    have hge : 1 ≤ (len + step - 1) / step :=
      (Nat.le_div_iff_mul_le (by omega : 0 < step)).mpr (by omega)
    have hlt : (len + step - 1) / step < 2 :=
      (Nat.div_lt_iff_lt_mul (by omega : 0 < step)).mpr (by omega)
    omega
  rw [hn]
  simp [List.range']

theorem joinNL_append (A B : List String) (hA : A ≠ []) (hB : B ≠ []) :
    joinNL (A ++ B) = joinNL A ++ "\n" ++ joinNL B := by
  induction A with
  | nil => exact absurd rfl hA
  | cons a as ih =>
    cases as with
    | nil =>
      cases B with
      | nil => exact absurd rfl hB
      | cons b bs => simp [joinNL]
    | cons a2 as2 =>
      have ihh := ih (by simp)
      simp only [List.cons_append] at ihh ⊢
      show a ++ "\n" ++ joinNL (a2 :: (as2 ++ B)) =
        (a ++ "\n" ++ joinNL (a2 :: as2)) ++ "\n" ++ joinNL B
      rw [ihh]
      simp [String.append_assoc]

theorem string_ne_empty_of_data (s : String) (h : s.data ≠ []) : s ≠ "" := by
  intro hcon
  rw [hcon] at h
  exact h rfl

theorem applyMetadataTag_ne_empty (t : String) (h : t ≠ "") : applyMetadataTag t ≠ "" := by
  unfold applyMetadataTag
  split
  · apply string_ne_empty_of_data
    rw [String.data_append, String.data_append, String.data_append]
    simp
  · exact h

set_option maxRecDepth 8000

/-! ### Claim C9 -/

/-- Claim C9 (confirmed): every chunk produced by `chunkFileContent` is
well-formed and hard-capped: `1 ≤ startLine ≤ endLine`,
`endLine - startLine + 1 ≤ maxChunkLines` (so boundary alignment never
extends a window past `start + maxChunkLines`: the cap is hard), and the
chunk's text is a non-empty trimmed window body, possibly preceded by a
one-line metadata tag. -/
theorem claim_C9_chunk_wellformed (cfg : RetrieverConfig) (p content : String)
    (c : Chunk) (hc : c ∈ chunkFileContent cfg p content) :
    1 ≤ c.startLine ∧ c.startLine ≤ c.endLine ∧
    c.endLine - c.startLine + 1 ≤ cfg.maxChunkLines ∧
    ∃ body, body ≠ "" ∧
      (c.text = body ∨ ∃ nm, c.text = "[" ++ nm ++ "]\n" ++ body) := by
  rw [chunkFileContent_mem] at hc
  obtain ⟨s, hs, hmk⟩ := hc
  rw [mkChunkAt_some_iff] at hmk
  obtain ⟨htext, rfl⟩ := hmk
  have hgt : s < alignedEnd cfg (splitLines content)
      (identifyCodeBoundaries (splitLines content)) s := by
    by_contra hcon
    push_neg at hcon
    apply htext
    unfold windowText
    have hz : alignedEnd cfg (splitLines content)
        (identifyCodeBoundaries (splitLines content)) s - s = 0 := by omega
    rw [hz]
    simp [joinNL, jsTrim, trimChars]
  have hle : alignedEnd cfg (splitLines content)
      (identifyCodeBoundaries (splitLines content)) s ≤ s + cfg.maxChunkLines := by
    unfold alignedEnd
    exact alignToCodeBoundary_le _ _ _ _ (min_le_right _ _)
  refine ⟨by simp, by dsimp only; omega, by dsimp only; omega,
    windowText cfg (splitLines content) (identifyCodeBoundaries (splitLines content)) s,
    htext, ?_⟩
  dsimp only
  unfold applyMetadataTag
  split
  · right
    exact ⟨_, rfl⟩
  · left
    rfl

/-- Witness for C9: the well-formedness facts at a concrete chunk of a
concrete file. -/
theorem claim_C9_chunk_wellformed_witness :
    1 ≤ (⟨"f.ts", 1, 3, "aaa\nbbb\nccc", ["aaa", "bbb", "ccc"]⟩ : Chunk).startLine ∧
    (⟨"f.ts", 1, 3, "aaa\nbbb\nccc", ["aaa", "bbb", "ccc"]⟩ : Chunk).startLine ≤
      (⟨"f.ts", 1, 3, "aaa\nbbb\nccc", ["aaa", "bbb", "ccc"]⟩ : Chunk).endLine ∧
    (⟨"f.ts", 1, 3, "aaa\nbbb\nccc", ["aaa", "bbb", "ccc"]⟩ : Chunk).endLine -
      (⟨"f.ts", 1, 3, "aaa\nbbb\nccc", ["aaa", "bbb", "ccc"]⟩ : Chunk).startLine + 1 ≤
      (⟨".", OPTIMAL_MODEL_ID, 6, 3, 1⟩ : RetrieverConfig).maxChunkLines ∧
    ∃ body, body ≠ "" ∧
      ((⟨"f.ts", 1, 3, "aaa\nbbb\nccc", ["aaa", "bbb", "ccc"]⟩ : Chunk).text = body ∨
       ∃ nm, (⟨"f.ts", 1, 3, "aaa\nbbb\nccc", ["aaa", "bbb", "ccc"]⟩ : Chunk).text =
         "[" ++ nm ++ "]\n" ++ body) :=
  claim_C9_chunk_wellformed ⟨".", OPTIMAL_MODEL_ID, 6, 3, 1⟩ "f.ts" "aaa\nbbb\nccc"
    ⟨"f.ts", 1, 3, "aaa\nbbb\nccc", ["aaa", "bbb", "ccc"]⟩ (by decide)

/-! ### Claim C2 -/

/-- Counterexample to claim C2 as stated: with `maxChunkLines = 3` and
`chunkOverlapLines = 1`, the file `"aaa\nbbb\nccc"` has 3 lines, which is
at most `maxChunkLines`, yet `chunkFileContent` yields **two** chunks (the
window step is `maxChunkLines - chunkOverlapLines = 2 < 3`, so a second
window starts inside the file); moreover a whitespace-only file yields
**zero** chunks, not one.  The same failure occurs at the default
configuration (48/8): a 45-line file is at most `maxChunkLines` lines yet
produces two chunks, because the second window starts at line 41. -/
theorem claim_C2_counterexample :
    ((splitLines "aaa\nbbb\nccc").length ≤
      (⟨".", OPTIMAL_MODEL_ID, 6, 3, 1⟩ : RetrieverConfig).maxChunkLines ∧
     (chunkFileContent ⟨".", OPTIMAL_MODEL_ID, 6, 3, 1⟩ "f.ts" "aaa\nbbb\nccc").length = 2 ∧
     chunkFileContent ⟨".", OPTIMAL_MODEL_ID, 6, 3, 1⟩ "f.ts" "" = []) ∧
    ((splitLines "aaa\naaa\naaa\naaa\naaa\naaa\naaa\naaa\naaa\naaa\naaa\naaa\naaa\naaa\naaa\naaa\naaa\naaa\naaa\naaa\naaa\naaa\naaa\naaa\naaa\naaa\naaa\naaa\naaa\naaa\naaa\naaa\naaa\naaa\naaa\naaa\naaa\naaa\naaa\naaa\naaa\naaa\naaa\naaa\naaa").length ≤ (defaultConfig ".").maxChunkLines ∧
     (chunkFileContent (defaultConfig ".") "f.ts"
       "aaa\naaa\naaa\naaa\naaa\naaa\naaa\naaa\naaa\naaa\naaa\naaa\naaa\naaa\naaa\naaa\naaa\naaa\naaa\naaa\naaa\naaa\naaa\naaa\naaa\naaa\naaa\naaa\naaa\naaa\naaa\naaa\naaa\naaa\naaa\naaa\naaa\naaa\naaa\naaa\naaa\naaa\naaa\naaa\naaa").length = 2) := by
  decide

/-- Claim C2 (amended): for every file whose total line count is at most
the window step `max 1 (maxChunkLines - chunkOverlapLines)` (rather than
`maxChunkLines`) and whose content does not trim to the empty string,
`chunkFileContent` yields exactly one chunk, with `startLine = 1` and
`endLine` equal to the file's total line count. -/
theorem claim_C2_single_chunk (cfg : RetrieverConfig) (p content : String)
    (hmax : 1 ≤ cfg.maxChunkLines)
    (hlen : (splitLines content).length ≤ stepSize cfg)
    (htext : jsTrim (joinNL (splitLines content)) ≠ "") :
    chunkFileContent cfg p content =
      [⟨p, 1, (splitLines content).length,
        applyMetadataTag (jsTrim (joinNL (splitLines content))),
        tokenize (jsTrim (joinNL (splitLines content)))⟩] := by
  simp only [chunkFileContent]
  rw [windowStarts_single _ _ (one_le_stepSize cfg) (splitLines_length_pos content) hlen]
  have hbe : baseEnd cfg (splitLines content).length 0 = (splitLines content).length := by
    unfold baseEnd
    have h1 := stepSize_le cfg hmax
    omega
  have hae : alignedEnd cfg (splitLines content)
      (identifyCodeBoundaries (splitLines content)) 0 = (splitLines content).length := by
    unfold alignedEnd
    rw [hbe]
    exact alignToCodeBoundary_of_lt _ _ _ _ (fun i hi => identifyCodeBoundaries_lt _ i hi)
  have hwt : windowText cfg (splitLines content)
      (identifyCodeBoundaries (splitLines content)) 0 = jsTrim (joinNL (splitLines content)) := by
    unfold windowText
    rw [hae, List.drop_zero, Nat.sub_zero, List.take_length]
  have hmk : mkChunkAt cfg p (splitLines content)
      (identifyCodeBoundaries (splitLines content)) 0 =
      some ⟨p, 1, (splitLines content).length,
        applyMetadataTag (jsTrim (joinNL (splitLines content))),
        tokenize (jsTrim (joinNL (splitLines content)))⟩ := by
    rw [mkChunkAt_some_iff]
    constructor
    · rw [hwt]
      exact htext
    · rw [hwt, hae]
  simp [List.filterMap_cons, hmk]

/-- Witness for the amended C2 at a concrete two-line file. -/
theorem claim_C2_single_chunk_witness :
    chunkFileContent ⟨".", OPTIMAL_MODEL_ID, 6, 3, 1⟩ "f.ts" "aaa\nbbb" =
      [⟨"f.ts", 1, (splitLines "aaa\nbbb").length,
        applyMetadataTag (jsTrim (joinNL (splitLines "aaa\nbbb"))),
        tokenize (jsTrim (joinNL (splitLines "aaa\nbbb")))⟩] :=
  claim_C2_single_chunk ⟨".", OPTIMAL_MODEL_ID, 6, 3, 1⟩ "f.ts" "aaa\nbbb"
    (by decide) (by decide) (by decide)

/-! ### Claim C3 -/

/-- Counterexample to claim C3 as stated: the tag decision is **not** a
function of the chunk's leading content.  (a) A chunk whose first line
`"enum Color {"` matches a structural pattern (the `enum` class pattern of
`identifyCodeBoundaries`) gets no tag, because `extractChunkMetadata` has
no `enum` alternative.  (b) A chunk whose leading line `"aaa"` matches no
structural pattern still gets a `[Function: foo]` tag, because
`extractChunkMetadata` searches the whole chunk text and finds a function
declaration further down. -/
theorem claim_C3_counterexample :
    (chunkFileContent (defaultConfig ".") "e.ts" "enum Color \x7b\nRed\n\x7d" =
      [⟨"e.ts", 1, 3, "enum Color \x7b\nRed\n\x7d", ["enum", "color", "red"]⟩] ∧
     isBoundaryLine "enum Color \x7b" = true ∧
     prefixOfB "[".data "enum Color \x7b\nRed\n\x7d".data = false) ∧
    (chunkFileContent (defaultConfig ".") "g.ts" "aaa\nfunction foo() \x7b" =
      [⟨"g.ts", 1, 2, "[Function: foo]\naaa\nfunction foo() \x7b",
        ["aaa", "function", "foo"]⟩] ∧
     isBoundaryLine "aaa" = false) := by
  decide

/-- Claim C3 (amended): every chunk's text is its trimmed window body,
prefixed by a one-line tag `[Function: name]` or
`[Class|Interface|Type: name]` **iff** one of `extractChunkMetadata`'s
patterns (function declaration, `const|let|var` arrow assignment, modified
method signature; or class / interface / type alias — not `enum`, and not
the bare `name(...) {` pattern) matches **anywhere** in the body, not just
in its leading content. -/
theorem claim_C3_tag_iff (cfg : RetrieverConfig) (p content : String)
    (c : Chunk) (hc : c ∈ chunkFileContent cfg p content) :
    ∃ body,
      ((extractChunkMetadata body = none ∧ c.text = body) ∨
       (∃ m, extractChunkMetadata body = some m ∧ c.text = "[" ++ m ++ "]\n" ++ body)) ∧
      ((extractChunkMetadata body).isSome ↔
        (reSearch fnSearchRE body.data).isSome ∨ (reSearch clsSearchRE body.data).isSome) := by
  rw [chunkFileContent_mem] at hc
  obtain ⟨s, hs, hmk⟩ := hc
  rw [mkChunkAt_some_iff] at hmk
  obtain ⟨htext, rfl⟩ := hmk
  refine ⟨windowText cfg (splitLines content) (identifyCodeBoundaries (splitLines content)) s,
    ?_, ?_⟩
  · dsimp only
    unfold applyMetadataTag
    split
    · rename_i m hm
      right
      exact ⟨m, hm, rfl⟩
    · rename_i hm
      left
      exact ⟨hm, rfl⟩
  · unfold extractChunkMetadata
    cases hf : reSearch fnSearchRE
        (windowText cfg (splitLines content) (identifyCodeBoundaries (splitLines content)) s).data with
    | some m => simp
    | none =>
      cases hcl : reSearch clsSearchRE
          (windowText cfg (splitLines content) (identifyCodeBoundaries (splitLines content)) s).data with
      | some m => simp
      | none => simp

/-- Witness for the amended C3: the tagged chunk of a file whose function
declaration sits away from the chunk's leading content. -/
theorem claim_C3_tag_iff_witness :
    ∃ body,
      ((extractChunkMetadata body = none ∧
        (⟨"g.ts", 1, 2, "[Function: foo]\naaa\nfunction foo() \x7b",
          ["aaa", "function", "foo"]⟩ : Chunk).text = body) ∨
       (∃ m, extractChunkMetadata body = some m ∧
        (⟨"g.ts", 1, 2, "[Function: foo]\naaa\nfunction foo() \x7b",
          ["aaa", "function", "foo"]⟩ : Chunk).text = "[" ++ m ++ "]\n" ++ body)) ∧
      ((extractChunkMetadata body).isSome ↔
        (reSearch fnSearchRE body.data).isSome ∨ (reSearch clsSearchRE body.data).isSome) :=
  claim_C3_tag_iff ⟨".", OPTIMAL_MODEL_ID, 6, 4, 1⟩ "g.ts" "aaa\nfunction foo() \x7b"
    ⟨"g.ts", 1, 2, "[Function: foo]\naaa\nfunction foo() \x7b", ["aaa", "function", "foo"]⟩
    (by decide)

/-! ### Claim C4 -/

/-- Counterexample to claim C4 as stated: chunk texts are **trimmed**, so
the overlap's bytes need not appear in both chunks.  With
`maxChunkLines = 4`, `overlapLines = 2` and the file
`"aaa\nbbb\nccc\n\n\nfff"`, chunks 1 and 2 come from adjacent windows with
no boundary extension and no discarded window, and the overlapping line
range (lines 3–4, text `"ccc\n"`) opens chunk 2's text but appears nowhere
in chunk 1's text — trimming removed the blank line 4 from chunk 1. -/
theorem claim_C4_counterexample :
    chunkFileContent ⟨".", OPTIMAL_MODEL_ID, 6, 4, 2⟩ "f.ts" "aaa\nbbb\nccc\n\n\nfff" =
      [⟨"f.ts", 1, 4, "aaa\nbbb\nccc", ["aaa", "bbb", "ccc"]⟩,
       ⟨"f.ts", 3, 6, "ccc\n\n\nfff", ["ccc", "fff"]⟩,
       ⟨"f.ts", 5, 6, "fff", ["fff"]⟩] ∧
    prefixOfB "ccc\n".data "ccc\n\n\nfff".data = true ∧
    infixOfB "ccc\n".data "aaa\nbbb\nccc".data = false := by
  decide

/-- Core of the amended C4, over an arbitrary line array: for adjacent
windows at `s` and `s + step` that both produce chunks, with no boundary
extension on the first window and both window texts already trimmed, the
second chunk starts `maxChunkLines - overlapLines` lines after the first
and the overlapping line range's text is a suffix of chunk 1's text and a
prefix of chunk 2's body. -/
theorem mkChunkAt_adjacent_overlap (cfg : RetrieverConfig) (p : String)
    (L : List String) (B : List Nat) (s : Nat) (c1 c2 : Chunk)
    (hov : cfg.chunkOverlapLines < cfg.maxChunkLines)
    (hnext : s + stepSize cfg < L.length)
    (h1 : mkChunkAt cfg p L B s = some c1)
    (h2 : mkChunkAt cfg p L B (s + stepSize cfg) = some c2)
    (hnoext : alignedEnd cfg L B s = baseEnd cfg L.length s)
    (htrim1 : jsTrim (joinNL ((L.drop s).take (baseEnd cfg L.length s - s))) =
      joinNL ((L.drop s).take (baseEnd cfg L.length s - s)))
    (htrim2 : jsTrim (joinNL ((L.drop (s + stepSize cfg)).take
        (alignedEnd cfg L B (s + stepSize cfg) - (s + stepSize cfg)))) =
      joinNL ((L.drop (s + stepSize cfg)).take
        (alignedEnd cfg L B (s + stepSize cfg) - (s + stepSize cfg)))) :
    c1.startLine = s + 1 ∧
    c2.startLine = c1.startLine + (cfg.maxChunkLines - cfg.chunkOverlapLines) ∧
    (∃ pre, c1.text = pre ++ joinNL ((L.drop (s + stepSize cfg)).take
      (baseEnd cfg L.length s - (s + stepSize cfg)))) ∧
    (∃ post bodyTwo,
      (c2.text = bodyTwo ∨ ∃ nm, c2.text = "[" ++ nm ++ "]\n" ++ bodyTwo) ∧
      bodyTwo = joinNL ((L.drop (s + stepSize cfg)).take
        (baseEnd cfg L.length s - (s + stepSize cfg))) ++ post) := by
  have hstepeq : stepSize cfg = cfg.maxChunkLines - cfg.chunkOverlapLines := by
    unfold stepSize
    omega
  have he1ge : s + stepSize cfg ≤ baseEnd cfg L.length s := by
    unfold baseEnd
    omega
  have he1len : baseEnd cfg L.length s ≤ L.length := by
    unfold baseEnd
    omega
  have hbe2ge : s + stepSize cfg ≤ baseEnd cfg L.length (s + stepSize cfg) := by
    unfold baseEnd
    omega
  have he1be2 : baseEnd cfg L.length s ≤ baseEnd cfg L.length (s + stepSize cfg) := by
    unfold baseEnd
    omega
  have hae2ge : baseEnd cfg L.length (s + stepSize cfg) ≤
      alignedEnd cfg L B (s + stepSize cfg) := alignToCodeBoundary_ge _ _ _ _
  have he1ae2 : baseEnd cfg L.length s ≤ alignedEnd cfg L B (s + stepSize cfg) :=
    le_trans he1be2 hae2ge
  rw [mkChunkAt_some_iff] at h1 h2
  obtain ⟨htext1, hc1⟩ := h1
  obtain ⟨htext2, hc2⟩ := h2
  -- window 1 splits as prefix ++ overlap lines
  have hwin1 : (L.drop s).take (baseEnd cfg L.length s - s) =
      (L.drop s).take (stepSize cfg) ++
      (L.drop (s + stepSize cfg)).take (baseEnd cfg L.length s - (s + stepSize cfg)) := by
    have hsplit : baseEnd cfg L.length s - s =
        stepSize cfg + (baseEnd cfg L.length s - (s + stepSize cfg)) := by omega
    rw [hsplit, List.take_add]
    congr 1
    rw [List.drop_drop]
  -- window 2 splits as overlap lines ++ rest
  have hwin2 : (L.drop (s + stepSize cfg)).take
        (alignedEnd cfg L B (s + stepSize cfg) - (s + stepSize cfg)) =
      (L.drop (s + stepSize cfg)).take (baseEnd cfg L.length s - (s + stepSize cfg)) ++
      (L.drop (baseEnd cfg L.length s)).take
        (alignedEnd cfg L B (s + stepSize cfg) - baseEnd cfg L.length s) := by
    have hsplit : alignedEnd cfg L B (s + stepSize cfg) - (s + stepSize cfg) =
        (baseEnd cfg L.length s - (s + stepSize cfg)) +
        (alignedEnd cfg L B (s + stepSize cfg) - baseEnd cfg L.length s) := by omega
    have harg : s + stepSize cfg + (baseEnd cfg L.length s - (s + stepSize cfg)) =
        baseEnd cfg L.length s := by omega
    rw [hsplit, List.take_add, List.drop_drop, harg]
  have hfst_ne : (L.drop s).take (stepSize cfg) ≠ [] := by
    have hstep1 : 1 ≤ stepSize cfg := one_le_stepSize cfg
    have hlen1 : ((L.drop s).take (stepSize cfg)).length = stepSize cfg := by
      rw [List.length_take, List.length_drop]
      omega
    intro hcon
    rw [hcon] at hlen1
    simp at hlen1
    omega
  have hwt1 : windowText cfg L B s =
      joinNL ((L.drop s).take (baseEnd cfg L.length s - s)) := by
    unfold windowText alignedEnd
    unfold alignedEnd at hnoext
    rw [hnoext]
    exact htrim1
  have hwt2 : windowText cfg L B (s + stepSize cfg) =
      joinNL ((L.drop (s + stepSize cfg)).take
        (alignedEnd cfg L B (s + stepSize cfg) - (s + stepSize cfg))) := htrim2
  refine ⟨by rw [hc1], by rw [hc1, hc2, ← hstepeq]; dsimp only; omega, ?_, ?_⟩
  · -- overlap is a suffix of chunk 1's text
    rw [hc1]
    dsimp only
    by_cases hovl : (L.drop (s + stepSize cfg)).take
        (baseEnd cfg L.length s - (s + stepSize cfg)) = []
    · rw [hovl]
      simp only [joinNL]
      exact ⟨applyMetadataTag (windowText cfg L B s), (String.append_empty _).symm⟩
    · have hjoin : joinNL ((L.drop s).take (baseEnd cfg L.length s - s)) =
          joinNL ((L.drop s).take (stepSize cfg)) ++ "\n" ++
          joinNL ((L.drop (s + stepSize cfg)).take
            (baseEnd cfg L.length s - (s + stepSize cfg))) := by
        rw [hwin1]
        exact joinNL_append _ _ hfst_ne hovl
      unfold applyMetadataTag
      split
      · rename_i m hm
        refine ⟨"[" ++ m ++ "]\n" ++ (joinNL ((L.drop s).take (stepSize cfg)) ++ "\n"), ?_⟩
        rw [hwt1, hjoin]
        simp [String.append_assoc]
      · refine ⟨joinNL ((L.drop s).take (stepSize cfg)) ++ "\n", ?_⟩
        rw [hwt1, hjoin]
        try simp [String.append_assoc]
  · -- overlap is a prefix of chunk 2's body
    have hbody : ∃ post, windowText cfg L B (s + stepSize cfg) =
        joinNL ((L.drop (s + stepSize cfg)).take
          (baseEnd cfg L.length s - (s + stepSize cfg))) ++ post := by
      rw [hwt2, hwin2]
      by_cases hovl : (L.drop (s + stepSize cfg)).take
          (baseEnd cfg L.length s - (s + stepSize cfg)) = []
      · refine ⟨joinNL ((L.drop (baseEnd cfg L.length s)).take
          (alignedEnd cfg L B (s + stepSize cfg) - baseEnd cfg L.length s)), ?_⟩
        rw [hovl, List.nil_append]
        simp only [joinNL]
        exact (String.empty_append _).symm
      · by_cases hrest : (L.drop (baseEnd cfg L.length s)).take
            (alignedEnd cfg L B (s + stepSize cfg) - baseEnd cfg L.length s) = []
        · refine ⟨"", ?_⟩
          rw [hrest, List.append_nil, String.append_empty]
        · refine ⟨"\n" ++ joinNL ((L.drop (baseEnd cfg L.length s)).take
            (alignedEnd cfg L B (s + stepSize cfg) - baseEnd cfg L.length s)), ?_⟩
          rw [joinNL_append _ _ hovl hrest]
          simp [String.append_assoc]
    obtain ⟨post, hpost⟩ := hbody
    refine ⟨post, windowText cfg L B (s + stepSize cfg), ?_, hpost⟩
    rw [hc2]
    dsimp only
    unfold applyMetadataTag
    split
    · rename_i m hm
      right
      exact ⟨m, rfl⟩
    · left
      rfl

/-- Claim C4 (amended): for any two chunks produced from adjacent windows
of the same file (no intervening window discarded, no boundary extension
on the first window), `chunk2.startLine = chunk1.startLine +
(maxChunkLines - overlapLines)`; and provided the two windows' joined
texts are already trimmed, the overlapping line range's text appears
verbatim as a suffix of chunk 1's text and as a prefix of chunk 2's body
(its text minus the optional metadata tag line). -/
theorem claim_C4_overlap (cfg : RetrieverConfig) (p content : String) (s : Nat)
    (c1 c2 : Chunk)
    (hov : cfg.chunkOverlapLines < cfg.maxChunkLines)
    (hs : s ∈ windowStarts (stepSize cfg) (splitLines content).length)
    (hnext : s + stepSize cfg < (splitLines content).length)
    (h1 : mkChunkAt cfg p (splitLines content)
      (identifyCodeBoundaries (splitLines content)) s = some c1)
    (h2 : mkChunkAt cfg p (splitLines content)
      (identifyCodeBoundaries (splitLines content)) (s + stepSize cfg) = some c2)
    (hnoext : alignedEnd cfg (splitLines content)
        (identifyCodeBoundaries (splitLines content)) s =
      baseEnd cfg (splitLines content).length s)
    (htrim1 : jsTrim (joinNL (((splitLines content).drop s).take
        (baseEnd cfg (splitLines content).length s - s))) =
      joinNL (((splitLines content).drop s).take
        (baseEnd cfg (splitLines content).length s - s)))
    (htrim2 : jsTrim (joinNL (((splitLines content).drop (s + stepSize cfg)).take
        (alignedEnd cfg (splitLines content) (identifyCodeBoundaries (splitLines content))
            (s + stepSize cfg) - (s + stepSize cfg)))) =
      joinNL (((splitLines content).drop (s + stepSize cfg)).take
        (alignedEnd cfg (splitLines content) (identifyCodeBoundaries (splitLines content))
            (s + stepSize cfg) - (s + stepSize cfg)))) :
    c1 ∈ chunkFileContent cfg p content ∧
    c2 ∈ chunkFileContent cfg p content ∧
    c1.startLine = s + 1 ∧
    c2.startLine = c1.startLine + (cfg.maxChunkLines - cfg.chunkOverlapLines) ∧
    (∃ pre, c1.text = pre ++ joinNL (((splitLines content).drop (s + stepSize cfg)).take
      (baseEnd cfg (splitLines content).length s - (s + stepSize cfg)))) ∧
    (∃ post bodyTwo,
      (c2.text = bodyTwo ∨ ∃ nm, c2.text = "[" ++ nm ++ "]\n" ++ bodyTwo) ∧
      bodyTwo = joinNL (((splitLines content).drop (s + stepSize cfg)).take
        (baseEnd cfg (splitLines content).length s - (s + stepSize cfg))) ++ post) := by
  obtain ⟨ha, hb, hcpre, hcpost⟩ :=
    mkChunkAt_adjacent_overlap cfg p (splitLines content)
      (identifyCodeBoundaries (splitLines content)) s c1 c2 hov hnext h1 h2 hnoext htrim1 htrim2
  refine ⟨?_, ?_, ha, hb, hcpre, hcpost⟩
  · rw [chunkFileContent_mem]
    exact ⟨s, hs, h1⟩
  · rw [chunkFileContent_mem]
    exact ⟨s + stepSize cfg,
      windowStarts_next _ _ _ (one_le_stepSize cfg) hs hnext, h2⟩

/-- Witness for the amended C4 at a concrete six-line file with
`maxChunkLines = 4`, `overlapLines = 2`. -/
theorem claim_C4_overlap_witness :
    (⟨"f.ts", 1, 4, "aaa\nbbb\nccc\nddd", ["aaa", "bbb", "ccc", "ddd"]⟩ : Chunk) ∈
      chunkFileContent ⟨".", OPTIMAL_MODEL_ID, 6, 4, 2⟩ "f.ts" "aaa\nbbb\nccc\nddd\neee\nfff" ∧
    (⟨"f.ts", 3, 6, "ccc\nddd\neee\nfff", ["ccc", "ddd", "eee", "fff"]⟩ : Chunk) ∈
      chunkFileContent ⟨".", OPTIMAL_MODEL_ID, 6, 4, 2⟩ "f.ts" "aaa\nbbb\nccc\nddd\neee\nfff" ∧
    (⟨"f.ts", 1, 4, "aaa\nbbb\nccc\nddd", ["aaa", "bbb", "ccc", "ddd"]⟩ : Chunk).startLine = 0 + 1 ∧
    (⟨"f.ts", 3, 6, "ccc\nddd\neee\nfff", ["ccc", "ddd", "eee", "fff"]⟩ : Chunk).startLine =
      (⟨"f.ts", 1, 4, "aaa\nbbb\nccc\nddd", ["aaa", "bbb", "ccc", "ddd"]⟩ : Chunk).startLine +
      ((⟨".", OPTIMAL_MODEL_ID, 6, 4, 2⟩ : RetrieverConfig).maxChunkLines -
       (⟨".", OPTIMAL_MODEL_ID, 6, 4, 2⟩ : RetrieverConfig).chunkOverlapLines) ∧
    (∃ pre, (⟨"f.ts", 1, 4, "aaa\nbbb\nccc\nddd", ["aaa", "bbb", "ccc", "ddd"]⟩ : Chunk).text =
      pre ++ joinNL (((splitLines "aaa\nbbb\nccc\nddd\neee\nfff").drop
        (0 + stepSize ⟨".", OPTIMAL_MODEL_ID, 6, 4, 2⟩)).take
        (baseEnd ⟨".", OPTIMAL_MODEL_ID, 6, 4, 2⟩
          (splitLines "aaa\nbbb\nccc\nddd\neee\nfff").length 0 -
         (0 + stepSize ⟨".", OPTIMAL_MODEL_ID, 6, 4, 2⟩)))) ∧
    (∃ post bodyTwo,
      ((⟨"f.ts", 3, 6, "ccc\nddd\neee\nfff", ["ccc", "ddd", "eee", "fff"]⟩ : Chunk).text = bodyTwo ∨
       ∃ nm, (⟨"f.ts", 3, 6, "ccc\nddd\neee\nfff", ["ccc", "ddd", "eee", "fff"]⟩ : Chunk).text =
         "[" ++ nm ++ "]\n" ++ bodyTwo) ∧
      bodyTwo = joinNL (((splitLines "aaa\nbbb\nccc\nddd\neee\nfff").drop
        (0 + stepSize ⟨".", OPTIMAL_MODEL_ID, 6, 4, 2⟩)).take
        (baseEnd ⟨".", OPTIMAL_MODEL_ID, 6, 4, 2⟩
          (splitLines "aaa\nbbb\nccc\nddd\neee\nfff").length 0 -
         (0 + stepSize ⟨".", OPTIMAL_MODEL_ID, 6, 4, 2⟩))) ++ post) :=
  claim_C4_overlap ⟨".", OPTIMAL_MODEL_ID, 6, 4, 2⟩ "f.ts" "aaa\nbbb\nccc\nddd\neee\nfff" 0
    ⟨"f.ts", 1, 4, "aaa\nbbb\nccc\nddd", ["aaa", "bbb", "ccc", "ddd"]⟩
    ⟨"f.ts", 3, 6, "ccc\nddd\neee\nfff", ["ccc", "ddd", "eee", "fff"]⟩
    (by decide) (by decide) (by decide) (by decide) (by decide) (by decide)
    (by decide) (by decide)

/-! ### Claim C5 -/

theorem mem_lexScored (idx : List Chunk) (prompt : String) (e : RankedChunk)
    (he : e ∈ lexScored idx prompt) :
    e.chunk ∈ idx ∧
    0 < overlapCount (tokenize prompt) e.chunk.lexicalTerms ∧
    e.score = .lex ⟨overlapCount (tokenize prompt) e.chunk.lexicalTerms,
      (tokenize prompt).length * e.chunk.lexicalTerms.length⟩ := by
  unfold lexScored at he
  rw [List.mem_filterMap] at he
  obtain ⟨c, hc, heq⟩ := he
  dsimp only at heq
  split at heq
  · exact absurd heq (by simp)
  · rename_i hne
    obtain rfl := Option.some_inj.mp heq
    exact ⟨hc, Nat.pos_of_ne_zero hne, rfl⟩

/-- Claim C5 (confirmed): the lexical stage drops exactly the chunks
sharing no token with the query, scores each survivor as
`overlap / sqrt (max 1 (|queryTokens| * |chunkTokens|))`, sorts survivors
descending by this score, and truncates to `topK * 12` candidates — all
without consulting the embedding capability (`lexicalCandidates` takes no
extractor argument, and `rankChunks` invokes the extractor only after it). -/
theorem claim_C5_lexical_stage (cfg : RetrieverConfig) (idx : List Chunk) (prompt : String) :
    (lexicalCandidates cfg idx prompt).length ≤ cfg.topK * LEXICAL_CANDIDATE_MULTIPLIER ∧
    (∀ e ∈ lexicalCandidates cfg idx prompt,
      e.chunk ∈ idx ∧
      0 < overlapCount (tokenize prompt) e.chunk.lexicalTerms ∧
      scoreVal e.score = (overlapCount (tokenize prompt) e.chunk.lexicalTerms : ℝ) /
        Real.sqrt ((max 1 ((tokenize prompt).length * e.chunk.lexicalTerms.length) : Nat) : ℝ)) ∧
    (lexicalCandidates cfg idx prompt).Pairwise
      (fun x y => scoreVal y.score ≤ scoreVal x.score) ∧
    (∀ c ∈ idx, overlapCount (tokenize prompt) c.lexicalTerms = 0 →
      c ∉ (lexicalCandidates cfg idx prompt).map (·.chunk)) ∧
    ((lexScored idx prompt).length ≤ cfg.topK * LEXICAL_CANDIDATE_MULTIPLIER →
      ∀ c ∈ idx, 0 < overlapCount (tokenize prompt) c.lexicalTerms →
        c ∈ (lexicalCandidates cfg idx prompt).map (·.chunk)) := by
  have hmemc : ∀ e ∈ lexicalCandidates cfg idx prompt, e ∈ lexScored idx prompt := by
    intro e he
    unfold lexicalCandidates at he
    have := List.mem_of_mem_take he
    rwa [mem_stableSortBy] at this
  refine ⟨?_, ?_, ?_, ?_, ?_⟩
  · exact List.length_take_le _ _
  · intro e he
    obtain ⟨h1, h2, h3⟩ := mem_lexScored idx prompt e (hmemc e he)
    refine ⟨h1, h2, ?_⟩
    rw [h3, scoreVal_lex]
  · have hsorted := pairwise_stableSortBy
      (fun (x y : RankedChunk) => scoreGe x.score y.score)
      (fun a b => scoreGe_total a.score b.score)
      (fun a b c h1 h2 => scoreGe_trans a.score b.score c.score h1 h2)
      (lexScored idx prompt)
    have htake : (lexicalCandidates cfg idx prompt).Pairwise
        (fun a b => scoreGe a.score b.score = true) := by
      unfold lexicalCandidates
      exact hsorted.sublist (List.take_sublist _ _)
    exact htake.imp (fun h => (scoreGe_iff _ _).mp h)
  · intro c hc hzero hcon
    rw [List.mem_map] at hcon
    obtain ⟨e, he, hec⟩ := hcon
    obtain ⟨_, hpos, _⟩ := mem_lexScored idx prompt e (hmemc e he)
    rw [hec, hzero] at hpos
    exact Nat.lt_irrefl 0 hpos
  · intro hlen c hc hpos
    have hsortlen : (stableSortBy (fun (x y : RankedChunk) => scoreGe x.score y.score)
        (lexScored idx prompt)).length = (lexScored idx prompt).length :=
      (stableSortBy_perm _ _).length_eq
    have htake_all : lexicalCandidates cfg idx prompt =
        stableSortBy (fun (x y : RankedChunk) => scoreGe x.score y.score)
          (lexScored idx prompt) := by
      unfold lexicalCandidates
      exact List.take_of_length_le (by omega)
    have hmem : (⟨c, .lex ⟨overlapCount (tokenize prompt) c.lexicalTerms,
        (tokenize prompt).length * c.lexicalTerms.length⟩⟩ : RankedChunk) ∈
        lexScored idx prompt := by
      unfold lexScored
      rw [List.mem_filterMap]
      refine ⟨c, hc, ?_⟩
      dsimp only
      rw [if_neg (Nat.pos_iff_ne_zero.mp hpos)]
    rw [htake_all, List.mem_map]
    refine ⟨⟨c, .lex ⟨overlapCount (tokenize prompt) c.lexicalTerms,
        (tokenize prompt).length * c.lexicalTerms.length⟩⟩, ?_, rfl⟩
    rwa [mem_stableSortBy]

/-- Witness for C5 at a concrete two-chunk index and query. -/
theorem claim_C5_lexical_stage_witness :
    (lexicalCandidates (defaultConfig ".")
        [⟨"a.ts", 1, 1, "ccc ddd", ["ccc", "ddd"]⟩, ⟨"b.ts", 1, 1, "xxx", ["xxx"]⟩]
        "ccc query").length ≤
      (defaultConfig ".").topK * LEXICAL_CANDIDATE_MULTIPLIER ∧
    ((⟨"a.ts", 1, 1, "ccc ddd", ["ccc", "ddd"]⟩ : Chunk) ∈
        [⟨"a.ts", 1, 1, "ccc ddd", ["ccc", "ddd"]⟩, ⟨"b.ts", 1, 1, "xxx", ["xxx"]⟩] ∧
      0 < overlapCount (tokenize "ccc query")
        (⟨"a.ts", 1, 1, "ccc ddd", ["ccc", "ddd"]⟩ : Chunk).lexicalTerms ∧
      scoreVal (Score.lex ⟨1, 4⟩) =
        ((overlapCount (tokenize "ccc query")
          (⟨"a.ts", 1, 1, "ccc ddd", ["ccc", "ddd"]⟩ : Chunk).lexicalTerms : Nat) : ℝ) /
        Real.sqrt ((max 1 ((tokenize "ccc query").length *
          (⟨"a.ts", 1, 1, "ccc ddd", ["ccc", "ddd"]⟩ : Chunk).lexicalTerms.length) : Nat) : ℝ)) ∧
    (⟨"b.ts", 1, 1, "xxx", ["xxx"]⟩ : Chunk) ∉
      (lexicalCandidates (defaultConfig ".")
        [⟨"a.ts", 1, 1, "ccc ddd", ["ccc", "ddd"]⟩, ⟨"b.ts", 1, 1, "xxx", ["xxx"]⟩]
        "ccc query").map (·.chunk) := by
  have h := claim_C5_lexical_stage (defaultConfig ".")
    [⟨"a.ts", 1, 1, "ccc ddd", ["ccc", "ddd"]⟩, ⟨"b.ts", 1, 1, "xxx", ["xxx"]⟩] "ccc query"
  refine ⟨h.1, ?_, ?_⟩
  · have hmem : (⟨⟨"a.ts", 1, 1, "ccc ddd", ["ccc", "ddd"]⟩, Score.lex ⟨1, 4⟩⟩ : RankedChunk) ∈
        lexicalCandidates (defaultConfig ".")
          [⟨"a.ts", 1, 1, "ccc ddd", ["ccc", "ddd"]⟩, ⟨"b.ts", 1, 1, "xxx", ["xxx"]⟩]
          "ccc query" := by decide
    exact h.2.1 _ hmem
  · exact h.2.2.2.1 _ (by decide) (by decide)

/-! ### Claim C1 -/

theorem mapWithIndex_map_chunk (g : Nat → RankedChunk → RankedChunk)
    (hg : ∀ i a, (g i a).chunk = a.chunk) :
    ∀ (i : Nat) (l : List RankedChunk),
      (mapWithIndex g i l).map (·.chunk) = l.map (·.chunk) := by
  intro i l
  induction l generalizing i with
  | nil => rfl
  | cons a as ih =>
    simp only [mapWithIndex, List.map_cons, hg, ih]

/-- Claim C1 (confirmed): if the embedding capability is unavailable (no
extractor, or the query embedding cannot be obtained), `rankChunks`
returns the lexical candidate list itself, unchanged; and for every
extractor the multiset of candidate chunks returned by `rankChunks` is
exactly that of the lexical-stage survivors — reranking permutes but never
adds or removes candidates. -/
theorem claim_C1_degrade_and_candidate_set (cfg : RetrieverConfig) (idx : List Chunk)
    (prompt : String) :
    rankChunks cfg idx prompt none = lexicalCandidates cfg idx prompt ∧
    (∀ f : Extractor, embedTextF f prompt = none →
      rankChunks cfg idx prompt (some f) = lexicalCandidates cfg idx prompt) ∧
    (∀ extractor : Option Extractor,
      List.Perm ((rankChunks cfg idx prompt extractor).map (·.chunk))
        ((lexicalCandidates cfg idx prompt).map (·.chunk))) := by
  have hdeg : rankChunks cfg idx prompt none = lexicalCandidates cfg idx prompt := by
    unfold rankChunks
    by_cases hE : (lexicalCandidates cfg idx prompt).isEmpty
    · rw [if_pos hE]
      exact (List.isEmpty_iff.mp hE).symm
    · rw [if_neg hE]
  have hq : ∀ f : Extractor, embedTextF f prompt = none →
      rankChunks cfg idx prompt (some f) = lexicalCandidates cfg idx prompt := by
    intro f hf
    unfold rankChunks
    by_cases hE : (lexicalCandidates cfg idx prompt).isEmpty
    · rw [if_pos hE]
      exact (List.isEmpty_iff.mp hE).symm
    · rw [if_neg hE]
      dsimp only
      rw [hf]
  refine ⟨hdeg, hq, ?_⟩
  intro extractor
  match extractor with
  | none => rw [hdeg]
  | some f =>
    cases hf : embedTextF f prompt with
    | none => rw [hq f hf]
    | some q =>
      unfold rankChunks
      by_cases hE : (lexicalCandidates cfg idx prompt).isEmpty
      · rw [if_pos hE, List.isEmpty_iff.mp hE]
      · rw [if_neg hE]
        dsimp only
        rw [hf]
        dsimp only
        refine List.Perm.trans
          (List.Perm.map (fun r : RankedChunk => r.chunk) (stableSortBy_perm _ _)) ?_
        rw [mapWithIndex_map_chunk
          (rerankEntry q (embedBatchF f ((lexicalCandidates cfg idx prompt).map
            (fun x => x.chunk.text)))) (fun i a => rfl)]

/-- Witness for C1: a failing extractor (whose tensor list is not an
array) degrades to the unchanged lexical candidate list on a concrete
index and query. -/
theorem claim_C1_degrade_witness :
    rankChunks (defaultConfig ".") [⟨"a.ts", 1, 1, "ccc", ["ccc"]⟩] "ccc query"
      (some (fun _ => ExtractorRaw.notArray)) =
    lexicalCandidates (defaultConfig ".") [⟨"a.ts", 1, 1, "ccc", ["ccc"]⟩] "ccc query" :=
  (claim_C1_degrade_and_candidate_set (defaultConfig ".")
    [⟨"a.ts", 1, 1, "ccc", ["ccc"]⟩] "ccc query").2.1
    (fun _ => ExtractorRaw.notArray) rfl

/-! ### Claim C6 -/

/-- Characterization of a successful persisted-index load: the file was
readable and non-empty, parsed, and every compatibility field matched. -/
theorem tryLoadPersistedIndex_eq_some_iff (cfg : RetrieverConfig) (fp : String)
    (raw : Option String) (parse : ParseOracle) (cs : List Chunk) :
    tryLoadPersistedIndex cfg fp raw parse = some cs ↔
      ∃ r parsed arr, raw = some r ∧ r ≠ "" ∧ parse r = some parsed ∧
        parsed.version = some PERSISTED_INDEX_VERSION ∧
        parsed.fingerprint = some fp ∧
        parsed.modelId = some cfg.modelId ∧
        parsed.maxChunkLines = some (cfg.maxChunkLines : Int) ∧
        parsed.chunkOverlapLines = some (cfg.chunkOverlapLines : Int) ∧
        parsed.chunksArr = some arr ∧
        cs = arr.map persistedToChunk := by
  cases raw with
  | none => simp [tryLoadPersistedIndex]
  | some r =>
    simp only [tryLoadPersistedIndex]
    by_cases hre : r = ""
    · subst hre
      simp
    · rw [if_neg hre]
      cases hp : parse r with
      | none => simp [hre, hp]
      | some parsed =>
        dsimp only
        by_cases hcompat : parsed.version = some PERSISTED_INDEX_VERSION ∧
            parsed.fingerprint = some fp ∧
            parsed.modelId = some cfg.modelId ∧
            parsed.maxChunkLines = some (cfg.maxChunkLines : Int) ∧
            parsed.chunkOverlapLines = some (cfg.chunkOverlapLines : Int) ∧
            parsed.chunksArr.isSome
        · obtain ⟨h1, h2, h3, h4, h5, h6⟩ := hcompat
          obtain ⟨arr, harr⟩ := Option.isSome_iff_exists.mp h6
          rw [if_pos ⟨h1, h2, h3, h4, h5, h6⟩]
          constructor
          · intro hcs
            obtain rfl := Option.some_inj.mp hcs
            exact ⟨r, parsed, arr, rfl, hre, hp, h1, h2, h3, h4, h5, harr,
              by rw [harr]; rfl⟩
          · rintro ⟨r', parsed', arr', hr', hre', hp', _, _, _, _, _, harr', hcs'⟩
            obtain rfl := Option.some_inj.mp hr'
            rw [hp] at hp'
            obtain rfl := Option.some_inj.mp hp'
            rw [hcs', harr]
            rw [harr] at harr'
            obtain rfl := Option.some_inj.mp harr'
            rfl
        · rw [if_neg hcompat]
          constructor
          · intro h
            exact absurd h (by simp)
          · rintro ⟨r', parsed', arr', hr', hre', hp', h1, h2, h3, h4, h5, harr', hcs'⟩
            obtain rfl := Option.some_inj.mp hr'
            rw [hp] at hp'
            obtain rfl := Option.some_inj.mp hp'
            exact absurd ⟨h1, h2, h3, h4, h5, by rw [harr']; rfl⟩ hcompat

/-- Claim C6 (confirmed): `tryLoadPersistedIndex` returns chunks only if
the stored version, fingerprint, model id and chunking parameters all
exactly match the running configuration and the freshly computed
fingerprint; an unreadable file, a parse failure, or any mismatch behaves
identically to an absent cache (`none`). -/
theorem claim_C6_persisted_index_guard (cfg : RetrieverConfig) (fp : String)
    (raw : Option String) (parse : ParseOracle) :
    (∀ cs, tryLoadPersistedIndex cfg fp raw parse = some cs →
      ∃ r parsed arr, raw = some r ∧ r ≠ "" ∧ parse r = some parsed ∧
        parsed.version = some PERSISTED_INDEX_VERSION ∧
        parsed.fingerprint = some fp ∧
        parsed.modelId = some cfg.modelId ∧
        parsed.maxChunkLines = some (cfg.maxChunkLines : Int) ∧
        parsed.chunkOverlapLines = some (cfg.chunkOverlapLines : Int) ∧
        parsed.chunksArr = some arr ∧
        cs = arr.map persistedToChunk) ∧
    (raw = none → tryLoadPersistedIndex cfg fp raw parse = none) ∧
    (∀ r, raw = some r → parse r = none →
      tryLoadPersistedIndex cfg fp raw parse = none) ∧
    (∀ r parsed, raw = some r → parse r = some parsed →
      ¬(parsed.version = some PERSISTED_INDEX_VERSION ∧
        parsed.fingerprint = some fp ∧
        parsed.modelId = some cfg.modelId ∧
        parsed.maxChunkLines = some (cfg.maxChunkLines : Int) ∧
        parsed.chunkOverlapLines = some (cfg.chunkOverlapLines : Int) ∧
        parsed.chunksArr.isSome = true) →
      tryLoadPersistedIndex cfg fp raw parse = none) := by
  refine ⟨fun cs hcs => (tryLoadPersistedIndex_eq_some_iff cfg fp raw parse cs).mp hcs,
    ?_, ?_, ?_⟩
  · intro h
    subst h
    rfl
  · intro r hr hp
    subst hr
    by_cases hre : r = ""
    · simp [tryLoadPersistedIndex, hre]
    · simp [tryLoadPersistedIndex, hre, hp]
  · intro r parsed hr hp hcompat
    subst hr
    by_cases hre : r = ""
    · simp [tryLoadPersistedIndex, hre]
    · simp only [tryLoadPersistedIndex]
      rw [if_neg hre, hp]
      dsimp only
      rw [if_neg hcompat]

/-- Witness for C6: an absent cache file, and a cache whose stored
fingerprint does not match the freshly computed one, both load as `none`. -/
theorem claim_C6_persisted_index_guard_witness :
    tryLoadPersistedIndex (defaultConfig ".") "fp" none (fun _ => none) = none ∧
    tryLoadPersistedIndex (defaultConfig ".") "fp" (some "x")
      (fun _ => some ⟨some 1, some OPTIMAL_MODEL_ID, some "other", some 48, some 8,
        some []⟩) = none :=
  ⟨(claim_C6_persisted_index_guard (defaultConfig ".") "fp" none (fun _ => none)).2.1 rfl,
   (claim_C6_persisted_index_guard (defaultConfig ".") "fp" (some "x")
      (fun _ => some ⟨some 1, some OPTIMAL_MODEL_ID, some "other", some 48, some 8,
        some []⟩)).2.2.2 "x"
     ⟨some 1, some OPTIMAL_MODEL_ID, some "other", some 48, some 8, some []⟩
     rfl rfl (by intro hcon; exact absurd hcon.2.1 (by decide))⟩

/-! ### Claim C7 -/

theorem string_eq_of_data (s t : String) (h : s.data = t.data) : s = t := by
  cases s with
  | mk d1 =>
    cases t with
    | mk d2 => exact congrArg String.mk h

theorem lexLeB_total (a b : List Char) : lexLeB a b = true ∨ lexLeB b a = true := by
  induction a generalizing b with
  | nil => left; rfl
  | cons x xs ih =>
    cases b with
    | nil => right; rfl
    | cons y ys =>
      by_cases hxy : x.toNat < y.toNat
      · left
        simp [lexLeB, hxy]
      · by_cases hyx : y.toNat < x.toNat
        · right
          simp [lexLeB, hyx]
        · rcases ih ys with h | h
          · left
            simp [lexLeB, hxy, hyx, h]
          · right
            simp [lexLeB, hxy, hyx, h]

theorem lexLeB_trans (a b c : List Char) (h1 : lexLeB a b = true)
    (h2 : lexLeB b c = true) : lexLeB a c = true := by
  induction a generalizing b c with
  | nil => rfl
  | cons x xs ih =>
    cases b with
    | nil => exact absurd h1 (by simp [lexLeB])
    | cons y ys =>
      cases c with
      | nil => exact absurd h2 (by simp [lexLeB])
      | cons z zs =>
        simp only [lexLeB] at h1 h2 ⊢
        split at h1
        · rename_i hxy
          split at h2
          · rename_i hyz
            rw [if_pos (by omega : x.toNat < z.toNat)]
          · split at h2
            · exact absurd h2 (by simp)
            · rename_i hyz hzy
              rw [if_pos (by omega : x.toNat < z.toNat)]
        · split at h1
          · exact absurd h1 (by simp)
          · rename_i hxy hyx
            split at h2
            · rename_i hyz
              rw [if_pos (by omega : x.toNat < z.toNat)]
            · split at h2
              · exact absurd h2 (by simp)
              · rename_i hyz hzy
                rw [if_neg (by omega : ¬ x.toNat < z.toNat),
                  if_neg (by omega : ¬ z.toNat < x.toNat)]
                exact ih ys zs h1 h2

theorem lexLeB_antisymm (a b : List Char) (h1 : lexLeB a b = true)
    (h2 : lexLeB b a = true) : a = b := by
  induction a generalizing b with
  | nil =>
    cases b with
    | nil => rfl
    | cons y ys => exact absurd h2 (by simp [lexLeB])
  | cons x xs ih =>
    cases b with
    | nil => exact absurd h1 (by simp [lexLeB])
    | cons y ys =>
      simp only [lexLeB] at h1 h2
      split at h1
      · rename_i hxy
        rw [if_neg (by omega : ¬ y.toNat < x.toNat), if_pos hxy] at h2
        exact absurd h2 (by simp)
      · split at h1
        · exact absurd h1 (by simp)
        · rename_i hxy hyx
          rw [if_neg (by omega : ¬ y.toNat < x.toNat),
            if_neg (by omega : ¬ x.toNat < y.toNat)] at h2
          have hchar : x = y := by
            apply Char.eq_of_val_eq
            exact UInt32.eq_of_val_eq (Fin.ext (by omega : x.toNat = y.toNat))
          rw [hchar, ih ys h1 h2]

/-- Counterexample to claim C7 as stated: permutation invariance fails for
entry lists with duplicate paths.  `Array.prototype.sort` is stable, so
two entries with path `"a"` but different sizes keep their input order,
and the joined fingerprint differs between the two orders. -/
theorem claim_C7_counterexample :
    List.Perm [(⟨"a", 1, 0⟩ : IndexFingerprintEntry), ⟨"a", 2, 0⟩]
      [(⟨"a", 2, 0⟩ : IndexFingerprintEntry), ⟨"a", 1, 0⟩] ∧
    fingerprintOfEntries [⟨"a", 1, 0⟩, ⟨"a", 2, 0⟩] ≠
      fingerprintOfEntries [⟨"a", 2, 0⟩, ⟨"a", 1, 0⟩] := by
  constructor
  · exact List.Perm.swap _ _ _
  · decide

/-- Claim C7 (amended): the fingerprint string is a pure function of the
*set* of `(relativePath, size, mtimeMs)` triples **provided the paths are
pairwise distinct** (which discovery guarantees — one entry per file): any
two permutations of such an entry list produce the same fingerprint,
because entries are sorted by path before joining. -/
theorem claim_C7_fingerprint_perm_invariant (l1 l2 : List IndexFingerprintEntry)
    (hperm : List.Perm l1 l2) (hnodup : (l1.map (·.path)).Nodup) :
    fingerprintOfEntries l1 = fingerprintOfEntries l2 := by
  have htot : ∀ a b, entryPathLe a b = true ∨ entryPathLe b a = true :=
    fun a b => lexLeB_total a.path.data b.path.data
  have htrans : ∀ a b c, entryPathLe a b = true → entryPathLe b c = true →
      entryPathLe a c = true :=
    fun a b c => lexLeB_trans a.path.data b.path.data c.path.data
  have hperm12 : List.Perm (stableSortBy entryPathLe l1) (stableSortBy entryPathLe l2) :=
    ((stableSortBy_perm entryPathLe l1).trans hperm).trans
      (stableSortBy_perm entryPathLe l2).symm
  have hnodup1 : ((stableSortBy entryPathLe l1).map (·.path)).Nodup :=
    ((List.Perm.map _ (stableSortBy_perm entryPathLe l1)).nodup_iff).mpr hnodup
  have hnodup2 : ((stableSortBy entryPathLe l2).map (·.path)).Nodup :=
    ((List.Perm.map _ (stableSortBy_perm entryPathLe l2)).nodup_iff).mpr
      (((List.Perm.map _ hperm).nodup_iff).mp hnodup)
  have hsorted : ∀ (l : List IndexFingerprintEntry),
      ((stableSortBy entryPathLe l).map (·.path)).Nodup →
      (stableSortBy entryPathLe l).Pairwise
        (fun a b => entryPathLe a b = true ∧ a.path ≠ b.path) := by
    intro l hnd
    have hp1 := pairwise_stableSortBy entryPathLe htot htrans l
    have hp2 : (stableSortBy entryPathLe l).Pairwise (fun a b => a.path ≠ b.path) :=
      List.pairwise_map.mp hnd
    exact hp1.and hp2
  haveI hanti : IsAntisymm IndexFingerprintEntry
      (fun a b => entryPathLe a b = true ∧ a.path ≠ b.path) := by
    constructor
    intro a b h1 h2
    exact absurd (string_eq_of_data _ _ (lexLeB_antisymm _ _ h1.1 h2.1)) h1.2
  have heq : stableSortBy entryPathLe l1 = stableSortBy entryPathLe l2 :=
    List.eq_of_perm_of_sorted hperm12 (hsorted l1 hnodup1) (hsorted l2 hnodup2)
  unfold fingerprintOfEntries
  rw [heq]

/-- Witness for the amended C7: two discovery orders of the same two
files produce the same fingerprint string. -/
theorem claim_C7_fingerprint_perm_invariant_witness :
    fingerprintOfEntries [⟨"b.ts", 1, 2⟩, ⟨"a.ts", 3, 4⟩] =
      fingerprintOfEntries [⟨"a.ts", 3, 4⟩, ⟨"b.ts", 1, 2⟩] :=
  claim_C7_fingerprint_perm_invariant _ _ (List.Perm.swap _ _ _) (by decide)

/-! ### Claim C8 -/

/-- Claim C8 (confirmed): a blank prompt yields the absent result
immediately: the returned state is the input state unchanged (indexing is
not started, the index is not read, no ranking happens), regardless of the
active file and of the current index state. -/
theorem claim_C8_blank_prompt (cfg : RetrieverConfig) (env : QueryEnv)
    (st : RetrieverState) (prompt : String) (activeFile : Option String)
    (hblank : jsTrim prompt = "") :
    getContextForPrompt cfg env st prompt activeFile = (none, st) := by
  unfold getContextForPrompt
  rw [if_pos hblank]

/-- Witness for C8: a whitespace-only prompt against a non-empty in-memory
index and an active file. -/
theorem claim_C8_blank_prompt_witness :
    getContextForPrompt (defaultConfig ".") ⟨none, fun _ => none, none⟩
      ⟨[⟨"a.ts", 1, 1, "xxx", ["xxx"]⟩], some "", false⟩ "  \t " (some "a.ts") =
    (none, ⟨[⟨"a.ts", 1, 1, "xxx", ["xxx"]⟩], some "", false⟩) :=
  claim_C8_blank_prompt (defaultConfig ".") ⟨none, fun _ => none, none⟩
    ⟨[⟨"a.ts", 1, 1, "xxx", ["xxx"]⟩], some "", false⟩ "  \t " (some "a.ts") (by decide)

/-! ### Claim C10 -/

/-- Claim C10 (confirmed): on the first call with a non-blank prompt, if
the synchronous best-effort cache load fails (no cache file, parse
failure, version mismatch, or `chunks` not an array), the call returns the
absent result regardless of repository content — the background rebuild is
fire-and-forget and contributes nothing to the state observed by this
call's empty-index check. -/
theorem claim_C10_first_call_cold (cfg : RetrieverConfig) (env : QueryEnv)
    (st : RetrieverState) (prompt : String) (activeFile : Option String)
    (hstarted : st.indexingStarted = false)
    (hempty : st.indexChunks = [])
    (hprompt : ¬ jsTrim prompt = "")
    (hfail : env.cacheRaw = none ∨
      ∃ raw, env.cacheRaw = some raw ∧
        (env.parse raw = none ∨
         ∀ parsed, env.parse raw = some parsed →
           (parsed.version ≠ some PERSISTED_INDEX_VERSION ∨ parsed.chunksArr = none))) :
    (getContextForPrompt cfg env st prompt activeFile).1 = none := by
  have hsync : startIndexingIfNeeded env st =
      tryLoadCachedIndexSync env { st with indexingStarted := true } := by
    unfold startIndexingIfNeeded
    rw [hstarted]
    simp
  have hchunks : (startIndexingIfNeeded env st).indexChunks = [] := by
    rw [hsync]
    unfold tryLoadCachedIndexSync
    rcases hfail with hnone | ⟨raw, hraw, hcase⟩
    · rw [hnone]
      exact hempty
    · rw [hraw]
      dsimp only
      rcases hcase with hp | hver
      · rw [hp]
        exact hempty
      · cases hpp : env.parse raw with
        | none => exact hempty
        | some parsed =>
          dsimp only
          rw [if_neg ?hcond]
          case hcond =>
            rintro ⟨hv, hs⟩
            rcases hver parsed hpp with hv2 | hs2
            · exact hv2 hv
            · rw [hs2] at hs
              exact absurd hs (by simp)
          exact hempty
  unfold getContextForPrompt
  rw [if_neg hprompt]
  simp [hchunks]

/-- Witness for C10: a first call (indexing not yet started, empty
in-memory index) with a non-blank prompt and an absent cache file. -/
theorem claim_C10_first_call_cold_witness :
    (getContextForPrompt (defaultConfig ".") ⟨none, fun _ => none, none⟩
      ⟨[], some "", false⟩ "hello world" none).1 = none :=
  claim_C10_first_call_cold (defaultConfig ".") ⟨none, fun _ => none, none⟩
    ⟨[], some "", false⟩ "hello world" none rfl rfl (by decide) (Or.inl rfl)
